import Mathlib

/-
Verification of the CloudSpanner string-indexer
(src/sentry/sentry_metrics/indexer/cloudspanner/cloudspanner.py).

The Python module is shallowly embedded below.  Machine integers are
modelled as Nat (decoded 63-bit ids) and Int (encoded, signed 64-bit,
stored ids).  The external collaborators that the module imports but
whose code is not part of the excerpt (the id generator stream, the key
result containers, the writes limiter, and the Spanner database itself)
are modelled from the specification, as indicated in their doc comments.
-/

/-- Modelled from the spec: `reverse_bits(number, bit_size)` from
`sentry.sentry_metrics.indexer.id_generator` (the module is imported by
the source file but is not part of the excerpt).  Per the spec it
reverses the `bit_size`-bit pattern of `number`: bit `i` of the input
becomes bit `bit_size - 1 - i` of the output. -/
def reverse_bits : Nat → Nat → Nat
  | _, 0 => 0
  | n, w + 1 => n % 2 * 2 ^ w + reverse_bits (n / 2) w

namespace IdCodec

/-- `IdCodec.encode` (cloudspanner.py line 77): reverse the 64-bit
pattern, then subtract `2^63` to re-bias into signed 64-bit range. -/
def encode (value : Nat) : Int := (reverse_bits value 64 : Int) - 2 ^ 63

/-- `IdCodec.decode` (cloudspanner.py line 80): add `2^63` back and
reverse the 64-bit pattern again. -/
def decode (value : Int) : Nat := reverse_bits (value + 2 ^ 63).toNat 64

end IdCodec

/-- Modelled from the spec: Fetch Type provenance tags of
`sentry.sentry_metrics.indexer.base` (imported, not in the excerpt):
cache hit, database read, first-seen insert, plus the synthetic tag the
write-admission layer supplies for dropped keys. -/
inductive FetchType where
  | CACHE_HIT
  | DB_READ
  | FIRST_SEEN
  | RATE_LIMITED
deriving DecidableEq

/-- `SpannerIndexerModel` from `cloudspanner_model` (imported, not in
the excerpt); fields per the spec data model, with `id` the encoded
(signed 64-bit) primary key and timestamps as abstract Nat instants. -/
structure SpannerIndexerModel where
  id : Int
  decoded_id : Nat
  string : String
  organization_id : Nat
  date_added : Nat
  last_seen : Nat
  retention_days : Nat
deriving DecidableEq

/-- The Spanner table contents: the opaque row store of the spec. -/
abbrev DB := List SpannerIndexerModel

/-- Modelled from the spec: `KeyResult` of the base module — a resolved
triple; `id` is optional because the admission layer supplies id-less
placeholder results for dropped keys. -/
structure KeyResult where
  org_id : Nat
  string : String
  id : Option Nat
deriving DecidableEq

/-- One stored entry of a `KeyResults` container: a `KeyResult` together
with its Fetch Type tag and optional `fetch_type_ext` metadata. -/
structure Entry where
  org_id : Nat
  string : String
  id : Option Nat
  fetch_type : FetchType
  fetch_type_ext : Option String
deriving DecidableEq

/-- Modelled from the spec: `KeyResults`, an accumulating collection
keyed by `(organization_id, string)`; adding a duplicate key overwrites. -/
abbrev KeyResults := List Entry

def entryKey (e : Entry) : Nat × String := (e.org_id, e.string)

/-- Modelled from the spec: `KeyResults.add_key_result` — insert one
entry, overwriting any entry already stored under the same key. -/
def add_key_result (krs : KeyResults) (e : Entry) : KeyResults :=
  krs.filter (fun x => !(x.org_id == e.org_id && x.string == e.string)) ++ [e]

/-- Fold a list of entries into a `KeyResults` container, left to right. -/
def addEntries (krs : KeyResults) (es : List Entry) : KeyResults :=
  es.foldl add_key_result krs

def toEntry (ft : FetchType) (fte : Option String) (r : KeyResult) : Entry :=
  ⟨r.org_id, r.string, r.id, ft, fte⟩

/-- Modelled from the spec: `KeyResults.add_key_results(results, fetch_type)`. -/
def add_key_results (krs : KeyResults) (results : List KeyResult) (ft : FetchType) : KeyResults :=
  addEntries krs (results.map (toEntry ft none))

/-- Modelled from the spec: `KeyResults.merge` — union, right side
overwriting on (never expected) key conflicts. -/
def mergeResults (a b : KeyResults) : KeyResults := addEntries a b

def keysOf (krs : KeyResults) : List (Nat × String) := krs.map entryKey

/-- Modelled from the spec: extracting the single result of a key from a
`KeyResults` container (`result[org_id][string]`); `none` models the
lookup error raised when the key has no entry at all. -/
def findEntry (krs : KeyResults) (org : Nat) (s : String) : Option Entry :=
  krs.find? (fun e => e.org_id == org && e.string == s)

def pairsOfDb (db : DB) : List (Nat × String) :=
  db.map (fun r => (r.organization_id, r.string))

def pairsOfModels (rows : List SpannerIndexerModel) : List (Nat × String) :=
  rows.map (fun r => (r.organization_id, r.string))

/-- Modelled from the spec: `KeyCollection(org_strings).as_tuples()` —
the deduplicated `(organization_id, string)` pairs of a mapping from
organizations to string sets. -/
def mkPairs (org_strings : List (Nat × List String)) : List (Nat × String) :=
  ((org_strings.map (fun p => p.2.dedup.map (fun s => (p.1, s)))).flatten).dedup

/-- Modelled from the spec: `KeyResults.get_unmapped_keys` — the subset
of the requested keys that have no resolved entry yet. -/
def get_unmapped_keys (krs : KeyResults) (keys : List (Nat × String)) : List (Nat × String) :=
  keys.filter (fun p => !((keysOf krs).contains p))

/-- `RawCloudSpannerIndexer._get_db_records` (lines 121-140): snapshot
keyset read on the unique `(organization_id, string)` index, decoding
every returned stored id. -/
def get_db_records (db : DB) (db_keys : List (Nat × String)) : List KeyResult :=
  (db.filter (fun r => db_keys.contains (r.organization_id, r.string))).map
    (fun r => ⟨r.organization_id, r.string, some (IdCodec.decode r.id)⟩)

/-- The in-batch duplicate-id retry loop of `_create_db_records`
(lines 156-162).  `remaining = 6 - failed_id_generation_count`: the
source checks `failed_id_generation_count > 5` before each redraw, so
`remaining = 0` is exactly the raise condition.  `k` is the index of the
next unconsumed value of the generator stream; the current candidate
draw is `i`. -/
def idRetryLoop (gen : Nat → Nat) (assigned : List Nat) : Nat → Nat → Nat → Option (Nat × Nat)
  | remaining, k, i =>
    if assigned.contains i then
      match remaining with
      | 0 => none
      | r + 1 => idRetryLoop gen assigned r (k + 1) (gen k)
    else
      some (i, k)

def _DEFAULT_RETENTION_DAYS : Nat := 90

/-- The per-key body of `_create_db_records` (lines 152-176), threading
the generator-stream counter `k` and the `already_assigned_ids` set. -/
def createLoop (gen : Nat → Nat) (now : Nat) : Nat → List Nat → List (Nat × String) →
    Option (List SpannerIndexerModel × Nat)
  | k, _, [] => some ([], k)
  | k, assigned, (org, s) :: rest =>
    match idRetryLoop gen assigned 6 (k + 1) (gen k) with
    | none => none
    | some (newId, k1) =>
      match createLoop gen now k1 (newId :: assigned) rest with
      | none => none
      | some (models, k2) =>
        some ({ id := IdCodec.encode newId, decoded_id := newId, string := s,
                organization_id := org, date_added := now, last_seen := now,
                retention_days := _DEFAULT_RETENTION_DAYS } :: models, k2)

/-- `RawCloudSpannerIndexer._create_db_records` (lines 142-176); `none`
models raising `IDGenerationError`. -/
def create_db_records (gen : Nat → Nat) (now k : Nat) (db_keys : List (Nat × String)) :
    Option (List SpannerIndexerModel × Nat) :=
  createLoop gen now k [] db_keys

/-- A candidate row violates a constraint against the committed table:
primary-key (`id`) uniqueness or `(organization_id, string)` uniqueness. -/
def rowConflict (db : DB) (m : SpannerIndexerModel) : Bool :=
  db.any (fun r => r.id == m.id ||
    (r.organization_id == m.organization_id && r.string == m.string))

/-- No two rows of a batch collide with each other on either constraint. -/
def noDupRows : List SpannerIndexerModel → Bool
  | [] => true
  | r :: rest =>
    !(rest.any (fun q => q.id == r.id ||
        (q.organization_id == r.organization_id && q.string == r.string))) && noDupRows rest

/-- Modelled from the spec: the database contract — a transactional
insert commits iff no inserted row violates either uniqueness constraint
against the committed state or against another row of the same mutation;
otherwise the whole transaction aborts with AlreadyExists/InvalidArgument.
The empty insert trivially commits. -/
def insertOk (db : DB) (rows : List SpannerIndexerModel) : Bool :=
  noDupRows rows && !(rows.any (rowConflict db))

/-- The two transactional reads of `insert_rw_transaction_uow`
(lines 274-287): rows matching the batch keys on the unique
`(organization_id, string)` index, followed by rows matching the batch
candidate primary keys; `existing_records` is their concatenation. -/
def existingRecords (db : DB) (rows : List SpannerIndexerModel) : DB :=
  db.filter (fun r => rows.any (fun q =>
      q.organization_id == r.organization_id && q.string == r.string))
    ++ db.filter (fun r => rows.any (fun q => q.id == r.id))

/-- The per-row loop of `insert_rw_transaction_uow` (lines 291-307):
id occupied → regenerate and re-encode; else pair occupied → drop;
else keep.  Threads the generator-stream counter `k`. -/
def uowLoop (gen : Nat → Nat) (idSet : List Int) (pairSet : List (Nat × String)) :
    Nat → List SpannerIndexerModel → List SpannerIndexerModel × Nat
  | k, [] => ([], k)
  | k, row :: rest =>
    if idSet.contains row.id then
      let g := gen k
      let res := uowLoop gen idSet pairSet (k + 1) rest
      ({ row with id := IdCodec.encode g, decoded_id := g } :: res.1, res.2)
    else if pairSet.contains (row.organization_id, row.string) then
      uowLoop gen idSet pairSet k rest
    else
      let res := uowLoop gen idSet pairSet k rest
      (row :: res.1, res.2)

/-- `insert_rw_transaction_uow` (lines 271-316) run against table state
`db`: the `missing_records` it would insert, and the advanced generator
counter. -/
def uowMissing (gen : Nat → Nat) (k : Nat) (db : DB) (rows : List SpannerIndexerModel) :
    List SpannerIndexerModel × Nat :=
  let ex := existingRecords db rows
  uowLoop gen (ex.map (fun r => r.id)) (ex.map (fun r => (r.organization_id, r.string))) k rows

/-- Modelled from the spec: the interleaving of the environment with one
`bulk_record` call.  `initialDb` is the state seen by the snapshot read,
`phase1Db` the committed state the Phase-1 batch insert is validated
against, `readDb n` / `commitDb n` the states the `n`-th Phase-2 retry
reads from and commits against (concurrent writers may change them
between retries). -/
structure Sched where
  initialDb : DB
  phase1Db : DB
  readDb : Nat → DB
  commitDb : Nat → DB

/-- Generator counter at the start of the `n`-th Phase-2 retry. -/
def p2State (gen : Nat → Nat) (sched : Sched) (rows : List SpannerIndexerModel) (k0 : Nat) :
    Nat → Nat
  | 0 => k0
  | n + 1 => (uowMissing gen (p2State gen sched rows k0 n) (sched.readDb n) rows).2

/-- The `missing_records` the `n`-th Phase-2 retry attempts to insert. -/
def p2TriesAt (gen : Nat → Nat) (sched : Sched) (rows : List SpannerIndexerModel)
    (k0 n : Nat) : List SpannerIndexerModel :=
  (uowMissing gen (p2State gen sched rows k0 n) (sched.readDb n) rows).1

/-- Whether the `n`-th Phase-2 retry transaction commits. -/
def p2SuccessAt (gen : Nat → Nat) (sched : Sched) (rows : List SpannerIndexerModel)
    (k0 n : Nat) : Bool :=
  insertOk (sched.commitDb n) (p2TriesAt gen sched rows k0 n)

/-- Termination of the unbounded `while not transaction_succeeded` loop
of `_insert_collisions_handled` (lines 322-330): some retry commits. -/
def p2Terminates (gen : Nat → Nat) (sched : Sched) (rows : List SpannerIndexerModel)
    (k0 : Nat) : Prop :=
  ∃ n, p2SuccessAt gen sched rows k0 n = true

/-- Search for the first committing Phase-2 retry, up to `fuel` retries. -/
def firstSuccessAux (gen : Nat → Nat) (sched : Sched) (rows : List SpannerIndexerModel)
    (k0 : Nat) : Nat → Nat → Option Nat
  | 0, _ => none
  | f + 1, n =>
    if p2SuccessAt gen sched rows k0 n then some n
    else firstSuccessAux gen sched rows k0 f (n + 1)

def firstSuccess (fuel : Nat) (gen : Nat → Nat) (sched : Sched)
    (rows : List SpannerIndexerModel) (k0 : Nat) : Option Nat :=
  firstSuccessAux gen sched rows k0 fuel 0

/-- `RawCloudSpannerIndexer._insert_collisions_not_handled`
(lines 198-243): the Phase-1 optimistic batch insert; on commit every
row of the batch is reported FIRST_SEEN with its decoded id; a conflict
(AlreadyExists/InvalidArgument) yields `none` (the
`CloudSpannerRowAlreadyExists` signal). -/
def insert_collisions_not_handled (db1 : DB) (rows : List SpannerIndexerModel) :
    Option (List Entry) :=
  if insertOk db1 rows then
    some (rows.map (fun r =>
      ⟨r.organization_id, r.string, some r.decoded_id, FetchType.FIRST_SEEN, none⟩))
  else
    none

/-- `RawCloudSpannerIndexer._insert_collisions_handled` (lines 245-342):
retry `insert_rw_transaction_uow` until it commits; on commit the rows
that transaction actually inserted are reported DB_READ with
`decode(row.id)`.  `none` means no retry within `fuel` committed. -/
def insert_collisions_handled (fuel : Nat) (gen : Nat → Nat) (sched : Sched)
    (rows : List SpannerIndexerModel) (k0 : Nat) : Option (List Entry) :=
  (firstSuccess fuel gen sched rows k0).map (fun n =>
    (p2TriesAt gen sched rows k0 n).map (fun r =>
      ⟨r.organization_id, r.string, some (IdCodec.decode r.id), FetchType.DB_READ, none⟩))

/-- `RawCloudSpannerIndexer._insert_db_records` (lines 178-196): try the
Phase-1 batch insert; on the conflict signal fall back to Phase 2. -/
def insert_db_records (fuel : Nat) (gen : Nat → Nat) (sched : Sched) (k : Nat)
    (rows : List SpannerIndexerModel) : Option (List Entry) :=
  match insert_collisions_not_handled sched.phase1Db rows with
  | some es => some es
  | none => insert_collisions_handled fuel gen sched rows k

/-- Modelled from the spec: the Write Admission Layer — a per-key
admission decision plus the Fetch Type / `fetch_type_ext` it supplies
for each dropped key (whose synthetic KeyResult carries no id). -/
structure WritesLimiter where
  admits : Nat → String → Bool
  dropFetchType : Nat → String → FetchType
  dropFetchTypeExt : Nat → String → Option String

/-- `bulk_record` lines 349-353: `db_read_key_results`, the DB_READ
results of the initial snapshot keyset read. -/
def bulkReadResults (sched : Sched) (org_strings : List (Nat × List String)) : KeyResults :=
  add_key_results [] (get_db_records sched.initialDb (mkPairs org_strings)) FetchType.DB_READ

/-- `bulk_record` line 354: `db_write_keys`, the requested keys still
unmapped after the initial read. -/
def bulkWriteKeys (sched : Sched) (org_strings : List (Nat × List String)) :
    List (Nat × String) :=
  get_unmapped_keys (bulkReadResults sched org_strings) (mkPairs org_strings)

/-- `bulk_record` line 377: `filtered_db_write_keys`, the subset the
Write Admission Layer accepts. -/
def bulkAccepted (lim : WritesLimiter) (sched : Sched)
    (org_strings : List (Nat × List String)) : List (Nat × String) :=
  (bulkWriteKeys sched org_strings).filter (fun p => lim.admits p.1 p.2)

/-- The keys the Write Admission Layer drops (`dropped_strings`). -/
def bulkDroppedKeys (lim : WritesLimiter) (sched : Sched)
    (org_strings : List (Nat × List String)) : List (Nat × String) :=
  (bulkWriteKeys sched org_strings).filter (fun p => !(lim.admits p.1 p.2))

/-- `bulk_record` lines 380-386: `rate_limited_key_results`, one entry
per dropped key, carrying the layer-supplied fetch type and ext and an
id-less placeholder KeyResult. -/
def bulkRateLimited (lim : WritesLimiter) (sched : Sched)
    (org_strings : List (Nat × List String)) : KeyResults :=
  addEntries [] ((bulkDroppedKeys lim sched org_strings).map (fun p =>
    ⟨p.1, p.2, none, lim.dropFetchType p.1 p.2, lim.dropFetchTypeExt p.1 p.2⟩))

/-- `bulk_record` line 391: `new_records`, built only when the accepted
set is non-empty (`none` otherwise, or when `_create_db_records`
raises). -/
def bulkCreated (gen : Nat → Nat) (k0 now : Nat) (lim : WritesLimiter) (sched : Sched)
    (org_strings : List (Nat × List String)) : Option (List SpannerIndexerModel × Nat) :=
  if (bulkAccepted lim sched org_strings).isEmpty then none
  else create_db_records gen now k0 (bulkAccepted lim sched org_strings)

/-- `bulk_record` line 394: `db_write_key_results` content — the
entries `_insert_db_records` adds for the created rows. -/
def bulkWriteEntries (fuel : Nat) (gen : Nat → Nat) (k0 now : Nat) (lim : WritesLimiter)
    (sched : Sched) (org_strings : List (Nat × List String)) : Option (List Entry) :=
  match bulkCreated gen k0 now lim sched org_strings with
  | none => none
  | some (new_records, k1) => insert_db_records fuel gen sched k1 new_records

/-- `RawCloudSpannerIndexer.bulk_record` (lines 344-396).  `none` models
an uncaught raise (`IDGenerationError`) or a Phase-2 loop that has not
committed within `fuel` retries. -/
def bulk_record (fuel : Nat) (gen : Nat → Nat) (k0 now : Nat) (lim : WritesLimiter)
    (sched : Sched) (org_strings : List (Nat × List String)) : Option KeyResults :=
  if (bulkWriteKeys sched org_strings).isEmpty then
    some (bulkReadResults sched org_strings)
  else if (bulkAccepted lim sched org_strings).isEmpty then
    some (mergeResults (bulkReadResults sched org_strings)
      (bulkRateLimited lim sched org_strings))
  else
    match bulkCreated gen k0 now lim sched org_strings with
    | none => none
    | some (new_records, k1) =>
      match insert_db_records fuel gen sched k1 new_records with
      | none => none
      | some wes =>
        some (mergeResults
          (mergeResults (bulkReadResults sched org_strings) (addEntries [] wes))
          (bulkRateLimited lim sched org_strings))

/-- The `(organization_id, string)` pairs of the accepted keys that the
committing Phase-2 transaction dropped (empty when Phase 1 committed or
when the write path was not taken at all). -/
def p2droppedOf (fuel : Nat) (gen : Nat → Nat) (k0 now : Nat) (lim : WritesLimiter)
    (sched : Sched) (org_strings : List (Nat × List String)) : List (Nat × String) :=
  match bulkWriteEntries fuel gen k0 now lim sched org_strings with
  | none => []
  | some we => (bulkAccepted lim sched org_strings).filter
      (fun p => !((keysOf we).contains p))

/-- `RawCloudSpannerIndexer.record` (lines 398-401): singleton
`bulk_record` then extraction of the one result. -/
def record (fuel : Nat) (gen : Nat → Nat) (k0 now : Nat) (lim : WritesLimiter)
    (sched : Sched) (org : Nat) (s : String) : Option (Option Nat) :=
  match bulk_record fuel gen k0 now lim sched [(org, [s])] with
  | none => none
  | some res =>
    match findEntry res org s with
    | none => none
    | some e => some e.id

/-- `RawCloudSpannerIndexer.resolve` (lines 403-417): snapshot keyset
read on the unique `(organization_id, string)` index; decode on hit,
`none` on miss.  The second component is the table state afterwards:
the source only issues a snapshot read, so it is returned unchanged. -/
def resolve (db : DB) (org : Nat) (s : String) : Option Nat × DB :=
  (match db.filter (fun r => r.organization_id == org && r.string == s) with
   | [] => none
   | r :: _ => some (IdCodec.decode r.id), db)

/-- `RawCloudSpannerIndexer.reverse_resolve` (lines 419-432): snapshot
primary-key keyset read using the caller-supplied id verbatim; the
`org` argument is accepted but never used by the source. -/
def reverse_resolve (db : DB) (org : Nat) (idv : Int) : Option String × DB :=
  (match db.filter (fun r => r.id == idv) with
   | [] => none
   | r :: _ => some r.string, db)

/-! Concrete scenario data used by counterexamples and witnesses. -/

def mkRow (d : Nat) (org : Nat) (s : String) : SpannerIndexerModel :=
  { id := IdCodec.encode d, decoded_id := d, string := s, organization_id := org,
    date_added := 0, last_seen := 0, retention_days := _DEFAULT_RETENTION_DAYS }

/-- A broken/exhausted generator that keeps producing `3`. -/
def cgenThree : Nat → Nat := fun _ => 3

/-- The single candidate row of the Phase-2 livelock scenario. -/
def exRowC3 : SpannerIndexerModel := mkRow 1 1 "a"

/-- A table that already occupies both the candidate primary key
(`encode 1`) and the key every future regeneration will produce
(`encode 3`), under unrelated strings. -/
def exDbC3 : DB := [mkRow 1 2 "x", mkRow 3 3 "y"]

/-- A quiescent environment: no concurrent writer ever changes the
table between reads, commits or retries. -/
def exSchedC3 : Sched :=
  { initialDb := exDbC3, phase1Db := exDbC3,
    readDb := fun _ => exDbC3, commitDb := fun _ => exDbC3 }

/-- A generator producing the fresh id `5` for the batch-completeness
scenario. -/
def cgenFive : Nat → Nat := fun _ => 5

/-- An admission layer that accepts every key. -/
def limAllowAll : WritesLimiter :=
  { admits := fun _ _ => true, dropFetchType := fun _ _ => FetchType.RATE_LIMITED,
    dropFetchTypeExt := fun _ _ => none }

/-- An admission layer that drops every key. -/
def limDenyAll : WritesLimiter :=
  { admits := fun _ _ => false, dropFetchType := fun _ _ => FetchType.RATE_LIMITED,
    dropFetchTypeExt := fun _ _ => none }

/-- The row a concurrent writer inserted for `(1, "a")` between the
snapshot read and the Phase-1 insert attempt. -/
def exRowC1 : SpannerIndexerModel := mkRow 7 1 "a"

/-- Schedule for the batch-completeness counterexample: the snapshot
read sees an empty table, but by Phase-1 commit time a concurrent
writer has interned `(1, "a")` under another id. -/
def exSchedC1 : Sched :=
  { initialDb := [], phase1Db := [exRowC1],
    readDb := fun _ => [exRowC1], commitDb := fun _ => [exRowC1] }

/-- A generator that returns the value `0` seven times (stream indices
0 through 6) and then fresh values. -/
def cgenSixDups : Nat → Nat := fun j => if j ≤ 6 then 0 else 1

/-- A generator stuck on the single value `0`. -/
def cgenZero : Nat → Nat := fun _ => 0

/-- An entirely empty, quiescent environment. -/
def exSchedEmpty : Sched :=
  { initialDb := [], phase1Db := [], readDb := fun _ => [], commitDb := fun _ => [] }

/-- An injective generator stream for the positive witnesses. -/
def cgenShift : Nat → Nat := fun j => j + 10

theorem reverse_bits_lt (n w : Nat) : reverse_bits n w < 2 ^ w := by
  induction w generalizing n with
  | zero => simp [reverse_bits]
  | succ w ih =>
    have h1 : reverse_bits (n / 2) w < 2 ^ w := ih (n / 2)
    have h2 : n % 2 < 2 := Nat.mod_lt _ (by omega)
    have h3 : (2 : Nat) ^ (w + 1) = 2 ^ w * 2 := by ring
    simp only [reverse_bits]
    nlinarith [Nat.two_pow_pos w]

theorem testBit_reverse_bits (w : Nat) :
    ∀ n i, (reverse_bits n w).testBit i = (decide (i < w) && n.testBit (w - 1 - i)) := by
  induction w with
  | zero => intro n i; simp [reverse_bits]
  | succ w ih =>
    intro n i
    have hrw : reverse_bits n (w + 1) = 2 ^ w * (n % 2) + reverse_bits (n / 2) w := by
      simp [reverse_bits, Nat.mul_comm]
    rw [hrw, Nat.testBit_mul_pow_two_add (n % 2) (reverse_bits_lt (n / 2) w) i]
    by_cases hiw : i < w
    · rw [if_pos hiw, ih (n / 2) i, Nat.testBit_div_two]
      have h1 : w - 1 - i + 1 = w + 1 - 1 - i := by omega
      have h2 : decide (i < w) = true := by simpa using hiw
      have h3 : decide (i < w + 1) = true := by simp; omega
      rw [h1, h2, h3]
    · rw [if_neg hiw]
      by_cases hie : i = w
      · subst hie
        have h0 : i - i = 0 := by omega
        rw [h0, Nat.testBit_zero]
        have h1 : i + 1 - 1 - i = 0 := by omega
        have h2 : decide (i < i + 1) = true := by simp
        rw [h1, h2, Nat.testBit_zero]
        have h3 : n % 2 % 2 = n % 2 := Nat.mod_mod_of_dvd n (by omega)
        simp [h3]
      · have hgt : w < i := by omega
        have h1 : n % 2 < 2 ^ (i - w) := by
          have : (2 : Nat) ^ 1 ≤ 2 ^ (i - w) := Nat.pow_le_pow_right (by omega) (by omega)
          have := Nat.mod_lt n (show 0 < 2 by omega)
          omega
        rw [Nat.testBit_lt_two_pow h1]
        have h2 : decide (i < w + 1) = false := by simp; omega
        rw [h2, Bool.false_and]

theorem reverse_bits_involution {n w : Nat} (h : n < 2 ^ w) :
    reverse_bits (reverse_bits n w) w = n := by
  apply Nat.eq_of_testBit_eq
  intro i
  rw [testBit_reverse_bits, testBit_reverse_bits]
  by_cases hiw : i < w
  · have h1 : decide (i < w) = true := by simpa using hiw
    have h2 : decide (w - 1 - i < w) = true := by simp; omega
    have h3 : w - 1 - (w - 1 - i) = i := by omega
    rw [h1, h2, h3, Bool.true_and, Bool.true_and]
  · have h1 : decide (i < w) = false := by simpa using hiw
    have h2 : n.testBit i = false := by
      apply Nat.testBit_lt_two_pow
      exact lt_of_lt_of_le h (Nat.pow_le_pow_right (by omega) (by omega))
    rw [h1, Bool.false_and, h2]

theorem decode_encode {x : Nat} (h : x < 2 ^ 63) :
    IdCodec.decode (IdCodec.encode x) = x := by
  unfold IdCodec.decode IdCodec.encode
  have h1 : ((reverse_bits x 64 : Int) - 2 ^ 63 + 2 ^ 63) = (reverse_bits x 64 : Int) := by ring
  rw [h1, Int.toNat_natCast]
  exact reverse_bits_involution (lt_trans h (by norm_num))

theorem encode_injective {x y : Nat} (hx : x < 2 ^ 64) (hy : y < 2 ^ 64)
    (h : IdCodec.encode x = IdCodec.encode y) : x = y := by
  unfold IdCodec.encode at h
  have h1 : (reverse_bits x 64 : Int) = (reverse_bits y 64 : Int) := by omega
  have h2 : reverse_bits x 64 = reverse_bits y 64 := by exact_mod_cast h1
  calc x = reverse_bits (reverse_bits x 64) 64 := (reverse_bits_involution hx).symm
    _ = reverse_bits (reverse_bits y 64) 64 := by rw [h2]
    _ = y := reverse_bits_involution hy

/-- C2: for every `x` in `[0, 2^63)`, `decode (encode x) = x`; `encode`
stays within the signed 64-bit range; and `encode` is injective over
that domain. -/
theorem c2_codec_roundtrip (x : Nat) (hx : x < 2 ^ 63) :
    IdCodec.decode (IdCodec.encode x) = x ∧
    -(2 ^ 63) ≤ IdCodec.encode x ∧ IdCodec.encode x < 2 ^ 63 ∧
    (∀ y : Nat, y < 2 ^ 63 → IdCodec.encode x = IdCodec.encode y → x = y) := by
  have hrlt : reverse_bits x 64 < 2 ^ 64 := reverse_bits_lt x 64
  have hcast : (reverse_bits x 64 : Int) < 2 ^ 64 := by exact_mod_cast hrlt
  have hnn : (0 : Int) ≤ (reverse_bits x 64 : Int) := Int.natCast_nonneg _
  have hpow : (2 : Int) ^ 64 = 2 ^ 63 + 2 ^ 63 := by norm_num
  refine ⟨decode_encode hx, ?_, ?_, ?_⟩
  · unfold IdCodec.encode; omega
  · unfold IdCodec.encode; omega
  · intro y hy he
    exact encode_injective (lt_trans hx (by norm_num)) (lt_trans hy (by norm_num)) he

theorem c2_codec_roundtrip_witness :
    IdCodec.decode (IdCodec.encode 6) = 6 ∧
    -(2 ^ 63) ≤ IdCodec.encode 6 ∧ IdCodec.encode 6 < 2 ^ 63 ∧ (6 : Nat) = 6 := by
  have h : (6 : Nat) < 2 ^ 63 := by norm_num
  obtain ⟨a, b, c, d⟩ := c2_codec_roundtrip 6 h
  exact ⟨a, b, c, d 6 h rfl⟩

/-- C9: `resolve` is a read-only point lookup: the table state is
unchanged; with no row for `(org, s)` it returns `none` (an explicit
not-found result, not an error); with a (unique) matching row it
returns that row's stored id decoded through the codec. -/
theorem c9_resolve_lookup (db : DB) (org : Nat) (s : String) :
    (resolve db org s).2 = db ∧
    ((∀ r ∈ db, ¬(r.organization_id = org ∧ r.string = s)) → (resolve db org s).1 = none) ∧
    (∀ r ∈ db, r.organization_id = org → r.string = s →
      (∀ r2 ∈ db, r2.organization_id = org → r2.string = s → r2 = r) →
      (resolve db org s).1 = some (IdCodec.decode r.id)) := by
  refine ⟨rfl, ?_, ?_⟩
  · intro hmiss
    have hnil : db.filter (fun r => r.organization_id == org && r.string == s) = [] := by
      rw [List.filter_eq_nil]
      intro r hr
      have := hmiss r hr
      simp only [Bool.and_eq_true, beq_iff_eq]
      tauto
    simp [resolve, hnil]
  · intro r hr h1 h2 huniq
    have hrf : r ∈ db.filter (fun r => r.organization_id == org && r.string == s) := by
      rw [List.mem_filter]
      exact ⟨hr, by simp [h1, h2]⟩
    cases hf : db.filter (fun r => r.organization_id == org && r.string == s) with
    | nil => rw [hf] at hrf; simp at hrf
    | cons r0 tl =>
      have hr0 : r0 ∈ db.filter (fun r => r.organization_id == org && r.string == s) := by
        rw [hf]; exact List.mem_cons_self r0 tl
      rw [List.mem_filter] at hr0
      obtain ⟨hr0db, hr0p⟩ := hr0
      simp only [Bool.and_eq_true, beq_iff_eq] at hr0p
      have heq : r0 = r := huniq r0 hr0db hr0p.1 hr0p.2
      simp [resolve, hf, heq]

theorem c9_resolve_lookup_witness :
    (resolve [mkRow 1 2 "x"] 5 "z").2 = [mkRow 1 2 "x"] ∧
    (resolve [mkRow 1 2 "x"] 5 "z").1 = none ∧
    (resolve [mkRow 1 2 "x"] 2 "x").1 = some (IdCodec.decode (mkRow 1 2 "x").id) := by
  refine ⟨(c9_resolve_lookup [mkRow 1 2 "x"] 5 "z").1, ?_, ?_⟩
  · exact (c9_resolve_lookup [mkRow 1 2 "x"] 5 "z").2.1 (by decide)
  · exact (c9_resolve_lookup [mkRow 1 2 "x"] 2 "x").2.2 (mkRow 1 2 "x")
      (by simp) (by decide) (by decide) (by intro r2 h _ _; simpa using h)

/-- C10: `reverse_resolve` ignores its `org` argument entirely, and it
uses the caller-supplied id verbatim as the primary-key lookup value:
over a table whose rows are stored under encoded primary keys, looking
up a decoded id `d` finds a row exactly when `d` coincides with some
row's own encoding. -/
theorem c10_reverse_resolve (db : DB) :
    (∀ o1 o2 i, reverse_resolve db o1 i = reverse_resolve db o2 i) ∧
    (∀ org (d : Nat), (∀ r ∈ db, r.id = IdCodec.encode r.decoded_id) →
      (((reverse_resolve db org ((d : Nat) : Int)).1).isSome ↔
        ∃ r ∈ db, IdCodec.encode r.decoded_id = ((d : Nat) : Int))) := by
  refine ⟨fun o1 o2 i => rfl, fun org d henc => ?_⟩
  unfold reverse_resolve
  cases hf : db.filter (fun r => r.id == ((d : Nat) : Int)) with
  | nil =>
    rw [List.filter_eq_nil] at hf
    simp only [Option.isSome_none, Bool.false_eq_true, false_iff]
    rintro ⟨r, hr, hid⟩
    exact hf r hr (by simp [henc r hr, hid])
  | cons r0 tl =>
    have hr0 : r0 ∈ db.filter (fun r => r.id == ((d : Nat) : Int)) := by
      rw [hf]; exact List.mem_cons_self r0 tl
    rw [List.mem_filter] at hr0
    simp only [Option.isSome_some, true_iff]
    exact ⟨r0, hr0.1, by have := hr0.2; simp only [beq_iff_eq] at this
                         rw [← henc r0 hr0.1]; exact this⟩

theorem c10_reverse_resolve_witness :
    reverse_resolve [mkRow 1 2 "x"] 4 (IdCodec.encode 1) =
      reverse_resolve [mkRow 1 2 "x"] 9 (IdCodec.encode 1) ∧
    (((reverse_resolve [mkRow 1 2 "x"] 4 ((1 : Nat) : Int)).1).isSome ↔
      ∃ r ∈ [mkRow 1 2 "x"], IdCodec.encode r.decoded_id = ((1 : Nat) : Int)) := by
  refine ⟨(c10_reverse_resolve [mkRow 1 2 "x"]).1 4 9 (IdCodec.encode 1), ?_⟩
  exact (c10_reverse_resolve [mkRow 1 2 "x"]).2 4 1
    (by intro r hr; simp only [List.mem_singleton] at hr; subst hr; rfl)

/-- C6: evaluation of `_create_db_records` at the divergence point.
The stream `cgenSixDups` makes the second key of the batch draw six
consecutive duplicate ids (stream indices 1 through 6 all repeat the id
already assigned to the first key) before a fresh id appears; the code
nevertheless succeeds, because its guard `failed_id_generation_count > 5`
only raises after a seventh consecutive duplicate draw — contradicting
the documented bound of five consecutive duplicate generations.  With a
generator stuck on one value (`cgenZero`) the error is raised. -/
theorem c6_bound_divergence :
    ((List.range 7).all (fun j => cgenSixDups j == 0)) = true ∧
    (create_db_records cgenSixDups 0 0 [(1, "a"), (1, "b")]).isSome = true ∧
    create_db_records cgenZero 0 0 [(1, "a"), (1, "b")] = none := by
  refine ⟨by decide, by decide, by decide⟩

/-! Helper lemmas about the `KeyResults` container. -/

theorem entry_beq_key (x e : Entry) :
    (x.org_id == e.org_id && x.string == e.string) = true ↔ entryKey x = entryKey e := by
  simp [entryKey, Prod.ext_iff]

theorem mem_add_key_result {krs : KeyResults} {e x : Entry} :
    x ∈ add_key_result krs e ↔ (x ∈ krs ∧ entryKey x ≠ entryKey e) ∨ x = e := by
  simp only [add_key_result, List.mem_append, List.mem_filter, List.mem_singleton]
  constructor
  · rintro (⟨hx, hp⟩ | hx)
    · left
      refine ⟨hx, fun hk => ?_⟩
      rw [Bool.not_eq_eq_eq_not, Bool.not_true] at hp
      rw [← entry_beq_key x e] at hk
      rw [hk] at hp
      cases hp
    · right; exact hx
  · rintro (⟨hx, hne⟩ | rfl)
    · left
      refine ⟨hx, ?_⟩
      rw [Bool.not_eq_eq_eq_not, Bool.not_true]
      by_contra hb
      exact hne ((entry_beq_key x e).mp (by revert hb; cases (x.org_id == e.org_id && x.string == e.string) <;> simp))
    · right; rfl

theorem mem_keysOf {krs : KeyResults} {p : Nat × String} :
    p ∈ keysOf krs ↔ ∃ e ∈ krs, entryKey e = p := by
  simp [keysOf, List.mem_map]

theorem keysOf_add_key_result {krs : KeyResults} {e : Entry} {p : Nat × String} :
    p ∈ keysOf (add_key_result krs e) ↔ p ∈ keysOf krs ∨ p = entryKey e := by
  simp only [mem_keysOf]
  constructor
  · rintro ⟨x, hx, rfl⟩
    rcases mem_add_key_result.mp hx with ⟨h1, _⟩ | rfl
    · exact Or.inl ⟨x, h1, rfl⟩
    · exact Or.inr rfl
  · rintro (⟨x, hx, rfl⟩ | rfl)
    · by_cases hk : entryKey x = entryKey e
      · exact ⟨e, mem_add_key_result.mpr (Or.inr rfl), hk.symm⟩
      · exact ⟨x, mem_add_key_result.mpr (Or.inl ⟨hx, hk⟩), rfl⟩
    · exact ⟨e, mem_add_key_result.mpr (Or.inr rfl), rfl⟩

theorem addEntries_cons (krs : KeyResults) (e : Entry) (rest : List Entry) :
    addEntries krs (e :: rest) = addEntries (add_key_result krs e) rest := rfl

theorem keysOf_addEntries {es : List Entry} : ∀ {krs : KeyResults} {p : Nat × String},
    p ∈ keysOf (addEntries krs es) ↔ p ∈ keysOf krs ∨ p ∈ keysOf es := by
  induction es with
  | nil => intro krs p; simp [addEntries, keysOf]
  | cons e rest ih =>
    intro krs p
    rw [addEntries_cons, ih, keysOf_add_key_result]
    have : p ∈ keysOf (e :: rest) ↔ p = entryKey e ∨ p ∈ keysOf rest := by
      simp [keysOf]
    rw [this]
    tauto

theorem mem_addEntries_elim {es : List Entry} : ∀ {krs : KeyResults} {x : Entry},
    x ∈ addEntries krs es → x ∈ krs ∨ x ∈ es := by
  induction es with
  | nil => intro krs x h; exact Or.inl h
  | cons e rest ih =>
    intro krs x h
    rw [addEntries_cons] at h
    rcases ih h with h1 | h1
    · rcases mem_add_key_result.mp h1 with ⟨h2, _⟩ | rfl
      · exact Or.inl h2
      · exact Or.inr (List.mem_cons_self _ _)
    · exact Or.inr (List.mem_cons_of_mem _ h1)

theorem mem_addEntries_of_not_key {es : List Entry} : ∀ {krs : KeyResults} {x : Entry},
    (∀ e ∈ es, entryKey e ≠ entryKey x) → (x ∈ addEntries krs es ↔ x ∈ krs) := by
  induction es with
  | nil => intro krs x _; exact Iff.rfl
  | cons e rest ih =>
    intro krs x hk
    rw [addEntries_cons, ih (fun e2 h2 => hk e2 (List.mem_cons_of_mem _ h2)),
      mem_add_key_result]
    constructor
    · rintro (⟨h2, _⟩ | rfl)
      · exact h2
      · exact absurd rfl (hk x (List.mem_cons_self _ _))
    · intro h2
      exact Or.inl ⟨h2, fun hkk => hk e (List.mem_cons_self _ _) hkk.symm⟩

theorem keysOf_nodup_add_key_result {krs : KeyResults} {e : Entry}
    (h : (keysOf krs).Nodup) : (keysOf (add_key_result krs e)).Nodup := by
  have hsub : (keysOf (krs.filter
      (fun x => !(x.org_id == e.org_id && x.string == e.string)))).Sublist (keysOf krs) :=
    List.Sublist.map entryKey (List.filter_sublist krs)
  have h1 : (keysOf (krs.filter
      (fun x => !(x.org_id == e.org_id && x.string == e.string)))).Nodup :=
    h.sublist hsub
  have h2 : entryKey e ∉ keysOf (krs.filter
      (fun x => !(x.org_id == e.org_id && x.string == e.string))) := by
    rw [mem_keysOf]
    rintro ⟨x, hx, hxk⟩
    rw [List.mem_filter, Bool.not_eq_eq_eq_not, Bool.not_true] at hx
    rw [← entry_beq_key x e] at hxk
    rw [hxk] at hx
    exact absurd hx.2 (by simp)
  have : keysOf (add_key_result krs e) = keysOf (krs.filter
      (fun x => !(x.org_id == e.org_id && x.string == e.string))) ++ [entryKey e] := by
    simp [add_key_result, keysOf]
  rw [this]
  rw [List.nodup_append]
  exact ⟨h1, List.nodup_singleton _, by
    intro a ha hb
    rw [List.mem_singleton] at hb
    subst hb
    exact h2 ha⟩

theorem keysOf_nodup_addEntries {es : List Entry} : ∀ {krs : KeyResults},
    (keysOf krs).Nodup → (keysOf (addEntries krs es)).Nodup := by
  induction es with
  | nil => intro krs h; exact h
  | cons e rest ih =>
    intro krs h
    rw [addEntries_cons]
    exact ih (keysOf_nodup_add_key_result h)

theorem mem_addEntries_self {es : List Entry} {krs : KeyResults} {x : Entry}
    (hnd : (keysOf es).Nodup) (hx : x ∈ es) : x ∈ addEntries krs es := by
  obtain ⟨l1, l2, rfl⟩ := List.append_of_mem hx
  have hfold : addEntries krs (l1 ++ x :: l2) =
      addEntries (add_key_result (addEntries krs l1) x) l2 := by
    simp [addEntries, List.foldl_append]
  rw [hfold]
  have hkx : entryKey x ∉ keysOf l2 := by
    have : keysOf (l1 ++ x :: l2) = keysOf l1 ++ entryKey x :: keysOf l2 := by
      simp [keysOf]
    rw [this] at hnd
    have := hnd.of_append_right
    rw [List.nodup_cons] at this
    exact this.1
  have hxk : ∀ e ∈ l2, entryKey e ≠ entryKey x := by
    intro e he heq
    exact hkx (mem_keysOf.mpr ⟨e, he, heq⟩)
  rw [mem_addEntries_of_not_key hxk]
  exact mem_add_key_result.mpr (Or.inr rfl)

/-! Helper lemmas about the read path, admission filters and creation. -/

theorem contains_iff {α : Type} [BEq α] [LawfulBEq α] {l : List α} {a : α} :
    l.contains a = true ↔ a ∈ l := by simp

theorem not_contains_iff {α : Type} [BEq α] [LawfulBEq α] {l : List α} {a : α} :
    (!(l.contains a)) = true ↔ a ∉ l := by simp

theorem keysRead_iff {sched : Sched} {input : List (Nat × List String)} {p : Nat × String} :
    p ∈ keysOf (bulkReadResults sched input) ↔
      p ∈ mkPairs input ∧ p ∈ pairsOfDb sched.initialDb := by
  unfold bulkReadResults add_key_results
  rw [keysOf_addEntries]
  constructor
  · rintro (h | h)
    · simp [keysOf] at h
    · rw [mem_keysOf] at h
      obtain ⟨e, he, rfl⟩ := h
      rw [List.mem_map] at he
      obtain ⟨kr, hkr, rfl⟩ := he
      unfold get_db_records at hkr
      rw [List.mem_map] at hkr
      obtain ⟨r, hr, rfl⟩ := hkr
      rw [List.mem_filter] at hr
      refine ⟨by simpa [toEntry, entryKey] using contains_iff.mp hr.2, ?_⟩
      show entryKey _ ∈ pairsOfDb sched.initialDb
      simp only [toEntry, entryKey, pairsOfDb, List.mem_map]
      exact ⟨r, hr.1, rfl⟩
  · rintro ⟨h1, h2⟩
    right
    rw [mem_keysOf]
    rw [pairsOfDb, List.mem_map] at h2
    obtain ⟨r, hr, rfl⟩ := h2
    refine ⟨toEntry FetchType.DB_READ none
      ⟨r.organization_id, r.string, some (IdCodec.decode r.id)⟩, ?_, rfl⟩
    rw [List.mem_map]
    refine ⟨⟨r.organization_id, r.string, some (IdCodec.decode r.id)⟩, ?_, rfl⟩
    unfold get_db_records
    rw [List.mem_map]
    exact ⟨r, List.mem_filter.mpr ⟨hr, contains_iff.mpr h1⟩, rfl⟩

theorem writeKeys_iff {sched : Sched} {input : List (Nat × List String)} {p : Nat × String} :
    p ∈ bulkWriteKeys sched input ↔
      p ∈ mkPairs input ∧ p ∉ pairsOfDb sched.initialDb := by
  unfold bulkWriteKeys get_unmapped_keys
  rw [List.mem_filter]
  constructor
  · rintro ⟨h1, h2⟩
    refine ⟨h1, fun hdb => ?_⟩
    have hmem : p ∈ keysOf (bulkReadResults sched input) := keysRead_iff.mpr ⟨h1, hdb⟩
    rw [not_contains_iff] at h2
    exact h2 hmem
  · rintro ⟨h1, h2⟩
    refine ⟨h1, not_contains_iff.mpr (fun hmem => ?_)⟩
    exact h2 (keysRead_iff.mp hmem).2

theorem accepted_iff {lim : WritesLimiter} {sched : Sched} {input : List (Nat × List String)}
    {p : Nat × String} :
    p ∈ bulkAccepted lim sched input ↔
      p ∈ bulkWriteKeys sched input ∧ lim.admits p.1 p.2 = true := by
  unfold bulkAccepted
  rw [List.mem_filter]

theorem droppedKeys_iff {lim : WritesLimiter} {sched : Sched} {input : List (Nat × List String)}
    {p : Nat × String} :
    p ∈ bulkDroppedKeys lim sched input ↔
      p ∈ bulkWriteKeys sched input ∧ lim.admits p.1 p.2 = false := by
  unfold bulkDroppedKeys
  rw [List.mem_filter, Bool.not_eq_eq_eq_not, Bool.not_true]

theorem rateLimited_keys_iff {lim : WritesLimiter} {sched : Sched}
    {input : List (Nat × List String)} {p : Nat × String} :
    p ∈ keysOf (bulkRateLimited lim sched input) ↔ p ∈ bulkDroppedKeys lim sched input := by
  unfold bulkRateLimited
  rw [keysOf_addEntries]
  constructor
  · rintro (h | h)
    · simp [keysOf] at h
    · rw [mem_keysOf] at h
      obtain ⟨e, he, rfl⟩ := h
      rw [List.mem_map] at he
      obtain ⟨q, hq, rfl⟩ := he
      simpa [entryKey] using hq
  · intro h
    right
    rw [mem_keysOf]
    exact ⟨⟨p.1, p.2, none, lim.dropFetchType p.1 p.2, lim.dropFetchTypeExt p.1 p.2⟩,
      List.mem_map.mpr ⟨p, h, rfl⟩, rfl⟩

theorem mkPairs_nodup (input : List (Nat × List String)) : (mkPairs input).Nodup :=
  List.nodup_dedup _

theorem writeKeys_nodup (sched : Sched) (input : List (Nat × List String)) :
    (bulkWriteKeys sched input).Nodup :=
  (mkPairs_nodup input).filter _

theorem droppedKeys_nodup (lim : WritesLimiter) (sched : Sched)
    (input : List (Nat × List String)) : (bulkDroppedKeys lim sched input).Nodup :=
  (writeKeys_nodup sched input).filter _

theorem createLoop_pairs {gen : Nat → Nat} {now : Nat} :
    ∀ {keys : List (Nat × String)} {k : Nat} {assigned : List Nat}
      {rows : List SpannerIndexerModel} {k1 : Nat},
      createLoop gen now k assigned keys = some (rows, k1) → pairsOfModels rows = keys := by
  intro keys
  induction keys with
  | nil =>
    intro k assigned rows k1 h
    simp only [createLoop, Option.some.injEq, Prod.mk.injEq] at h
    rw [← h.1]
    rfl
  | cons q rest ih =>
    intro k assigned rows k1 h
    obtain ⟨org, s⟩ := q
    unfold createLoop at h
    split at h
    · cases h
    · split at h
      · cases h
      · rename_i newId ka hid models kb hcl
        simp only [Option.some.injEq, Prod.mk.injEq] at h
        rw [← h.1]
        have htl := ih hcl
        simp only [pairsOfModels, List.map_cons] at htl ⊢
        rw [htl]

/-! Helper lemmas about the Phase-2 transaction body. -/

theorem uowLoop_pairs_subset (gen : Nat → Nat) (idSet : List Int)
    (pairSet : List (Nat × String)) :
    ∀ (rows : List SpannerIndexerModel) (k : Nat) {p : Nat × String},
      p ∈ pairsOfModels (uowLoop gen idSet pairSet k rows).1 → p ∈ pairsOfModels rows := by
  intro rows
  induction rows with
  | nil => intro k p hp; simp [uowLoop, pairsOfModels] at hp
  | cons r rest ih =>
    intro k p hp
    cases hc1 : idSet.contains r.id with
    | true =>
      simp only [uowLoop, hc1, if_true] at hp
      simp only [pairsOfModels, List.map_cons, List.mem_cons] at hp ⊢
      rcases hp with hp | hp
      · exact Or.inl hp
      · exact Or.inr (ih (k + 1) hp)
    | false =>
      cases hc2 : pairSet.contains (r.organization_id, r.string) with
      | true =>
        simp only [uowLoop, hc1, hc2, Bool.false_eq_true, if_false, if_true] at hp
        simp only [pairsOfModels, List.map_cons, List.mem_cons]
        exact Or.inr (ih k hp)
      | false =>
        simp only [uowLoop, hc1, hc2, Bool.false_eq_true, if_false] at hp
        simp only [pairsOfModels, List.map_cons, List.mem_cons] at hp ⊢
        rcases hp with hp | hp
        · exact Or.inl hp
        · exact Or.inr (ih k hp)

theorem uowLoop_mem_strong (gen : Nat → Nat) (idSet : List Int)
    (pairSet : List (Nat × String)) :
    ∀ (rows : List SpannerIndexerModel) (k : Nat) (m : SpannerIndexerModel),
      m ∈ (uowLoop gen idSet pairSet k rows).1 →
      (∃ row ∈ rows, m = row ∧ idSet.contains row.id = false ∧
        pairSet.contains (row.organization_id, row.string) = false) ∨
      (∃ row ∈ rows, ∃ j, k ≤ j ∧ j < k + rows.length ∧
        m = { row with id := IdCodec.encode (gen j), decoded_id := gen j } ∧
        idSet.contains row.id = true) := by
  intro rows
  induction rows with
  | nil => intro k m h; simp [uowLoop] at h
  | cons r rest ih =>
    intro k m h
    cases hc1 : idSet.contains r.id with
    | true =>
      simp only [uowLoop, hc1, if_true, List.mem_cons] at h
      rcases h with rfl | hm
      · exact Or.inr ⟨r, List.mem_cons_self _ _, k, le_refl _,
          by simp only [List.length_cons]; omega, rfl, hc1⟩
      · rcases ih (k + 1) m hm with ⟨row, hrow, h2⟩ | ⟨row, hrow, j, hj1, hj2, hm2, hocc⟩
        · exact Or.inl ⟨row, List.mem_cons_of_mem _ hrow, h2⟩
        · refine Or.inr ⟨row, List.mem_cons_of_mem _ hrow, j, by omega, ?_, hm2, hocc⟩
          simp only [List.length_cons]
          omega
    | false =>
      cases hc2 : pairSet.contains (r.organization_id, r.string) with
      | true =>
        simp only [uowLoop, hc1, hc2, Bool.false_eq_true, if_false, if_true] at h
        rcases ih k m h with ⟨row, hrow, h2⟩ | ⟨row, hrow, j, hj1, hj2, hm2, hocc⟩
        · exact Or.inl ⟨row, List.mem_cons_of_mem _ hrow, h2⟩
        · refine Or.inr ⟨row, List.mem_cons_of_mem _ hrow, j, hj1, ?_, hm2, hocc⟩
          simp only [List.length_cons]
          omega
      | false =>
        simp only [uowLoop, hc1, hc2, Bool.false_eq_true, if_false, List.mem_cons] at h
        rcases h with rfl | hm
        · exact Or.inl ⟨m, List.mem_cons_self _ _, rfl, hc1, hc2⟩
        · rcases ih k m hm with ⟨row, hrow, h2⟩ | ⟨row, hrow, j, hj1, hj2, hm2, hocc⟩
          · exact Or.inl ⟨row, List.mem_cons_of_mem _ hrow, h2⟩
          · refine Or.inr ⟨row, List.mem_cons_of_mem _ hrow, j, hj1, ?_, hm2, hocc⟩
            simp only [List.length_cons]
            omega

theorem uowLoop_regen (gen : Nat → Nat) (idSet : List Int) (pairSet : List (Nat × String)) :
    ∀ (rows : List SpannerIndexerModel) (k : Nat) (row : SpannerIndexerModel),
      row ∈ rows → idSet.contains row.id = true →
      ∃ j, k ≤ j ∧ ({ row with id := IdCodec.encode (gen j), decoded_id := gen j } :
        SpannerIndexerModel) ∈ (uowLoop gen idSet pairSet k rows).1 := by
  intro rows
  induction rows with
  | nil => intro k row h; cases h
  | cons r rest ih =>
    intro k row hmem hocc
    rcases List.mem_cons.mp hmem with rfl | hmem2
    · refine ⟨k, le_refl _, ?_⟩
      simp only [uowLoop, hocc, if_true, List.mem_cons]
      exact Or.inl trivial
    · cases hc1 : idSet.contains r.id with
      | true =>
        obtain ⟨j, hj, hmem3⟩ := ih (k + 1) row hmem2 hocc
        refine ⟨j, by omega, ?_⟩
        simp only [uowLoop, hc1, if_true, List.mem_cons]
        exact Or.inr hmem3
      | false =>
        cases hc2 : pairSet.contains (r.organization_id, r.string) with
        | true =>
          obtain ⟨j, hj, hmem3⟩ := ih k row hmem2 hocc
          refine ⟨j, hj, ?_⟩
          simp only [uowLoop, hc1, hc2, Bool.false_eq_true, if_false, if_true]
          exact hmem3
        | false =>
          obtain ⟨j, hj, hmem3⟩ := ih k row hmem2 hocc
          refine ⟨j, hj, ?_⟩
          simp only [uowLoop, hc1, hc2, Bool.false_eq_true, if_false, List.mem_cons]
          exact Or.inr hmem3

theorem uowLoop_keep (gen : Nat → Nat) (idSet : List Int) (pairSet : List (Nat × String)) :
    ∀ (rows : List SpannerIndexerModel) (k : Nat) (row : SpannerIndexerModel),
      row ∈ rows → idSet.contains row.id = false →
      pairSet.contains (row.organization_id, row.string) = false →
      row ∈ (uowLoop gen idSet pairSet k rows).1 := by
  intro rows
  induction rows with
  | nil => intro k row h; cases h
  | cons r rest ih =>
    intro k row hmem h1 h2
    rcases List.mem_cons.mp hmem with rfl | hmem2
    · simp only [uowLoop, h1, h2, Bool.false_eq_true, if_false, List.mem_cons]
      exact Or.inl trivial
    · cases hc1 : idSet.contains r.id with
      | true =>
        simp only [uowLoop, hc1, if_true, List.mem_cons]
        exact Or.inr (ih (k + 1) row hmem2 h1 h2)
      | false =>
        cases hc2 : pairSet.contains (r.organization_id, r.string) with
        | true =>
          simp only [uowLoop, hc1, hc2, Bool.false_eq_true, if_false, if_true]
          exact ih k row hmem2 h1 h2
        | false =>
          simp only [uowLoop, hc1, hc2, Bool.false_eq_true, if_false, List.mem_cons]
          exact Or.inr (ih k row hmem2 h1 h2)

theorem uowLoop_dropped (gen : Nat → Nat) (idSet : List Int) (pairSet : List (Nat × String)) :
    ∀ (rows : List SpannerIndexerModel) (k : Nat) (row : SpannerIndexerModel),
      row ∈ rows → (pairsOfModels rows).Nodup →
      idSet.contains row.id = false →
      pairSet.contains (row.organization_id, row.string) = true →
      (row.organization_id, row.string) ∉ pairsOfModels (uowLoop gen idSet pairSet k rows).1 := by
  intro rows
  induction rows with
  | nil => intro k row h; cases h
  | cons r rest ih =>
    intro k row hmem hnd h1 h2 hcontra
    have hnd2 : ((r.organization_id, r.string) ∉ pairsOfModels rest) ∧
        (pairsOfModels rest).Nodup := by
      simpa [pairsOfModels] using hnd
    rcases List.mem_cons.mp hmem with rfl | hm
    · simp only [uowLoop, h1, h2, Bool.false_eq_true, if_false, if_true] at hcontra
      exact hnd2.1 (uowLoop_pairs_subset gen idSet pairSet rest k hcontra)
    · have hpairr : (row.organization_id, row.string) ∈ pairsOfModels rest :=
        List.mem_map.mpr ⟨row, hm, rfl⟩
      have hner : ¬((row.organization_id, row.string) = (r.organization_id, r.string)) := by
        intro he
        rw [he] at hpairr
        exact hnd2.1 hpairr
      cases hc1 : idSet.contains r.id with
      | true =>
        simp only [uowLoop, hc1, if_true, pairsOfModels, List.map_cons,
          List.mem_cons] at hcontra
        rcases hcontra with hcontra | hcontra
        · exact hner hcontra
        · exact ih k.succ row hm hnd2.2 h1 h2 hcontra
      | false =>
        cases hc2 : pairSet.contains (r.organization_id, r.string) with
        | true =>
          simp only [uowLoop, hc1, hc2, Bool.false_eq_true, if_false, if_true] at hcontra
          exact ih k row hm hnd2.2 h1 h2 hcontra
        | false =>
          simp only [uowLoop, hc1, hc2, Bool.false_eq_true, if_false, pairsOfModels,
            List.map_cons, List.mem_cons] at hcontra
          rcases hcontra with hcontra | hcontra
          · exact hner hcontra
          · exact ih k row hm hnd2.2 h1 h2 hcontra

/-! Dispatch lemmas for the two-phase insert. -/

theorem insert_db_records_pos {fuel : Nat} {gen : Nat → Nat} {sched : Sched} {k : Nat}
    {rows : List SpannerIndexerModel} (h1 : insertOk sched.phase1Db rows = true) :
    insert_db_records fuel gen sched k rows =
      some (rows.map (fun r =>
        ⟨r.organization_id, r.string, some r.decoded_id, FetchType.FIRST_SEEN, none⟩)) := by
  unfold insert_db_records insert_collisions_not_handled
  rw [if_pos h1]

theorem insert_db_records_neg {fuel : Nat} {gen : Nat → Nat} {sched : Sched} {k : Nat}
    {rows : List SpannerIndexerModel} (h1 : insertOk sched.phase1Db rows = false) :
    insert_db_records fuel gen sched k rows = insert_collisions_handled fuel gen sched rows k := by
  unfold insert_db_records insert_collisions_not_handled
  rw [if_neg (by simp [h1])]

theorem firstSuccessAux_spec (gen : Nat → Nat) (sched : Sched)
    (rows : List SpannerIndexerModel) (k0 : Nat) :
    ∀ (f s n0 : Nat), s ≤ n0 → n0 < s + f →
      (∀ m, s ≤ m → m < n0 → p2SuccessAt gen sched rows k0 m = false) →
      p2SuccessAt gen sched rows k0 n0 = true →
      firstSuccessAux gen sched rows k0 f s = some n0 := by
  intro f
  induction f with
  | zero =>
    intro s n0 h1 h2 _ _
    exact absurd h2 (by omega)
  | succ f ih =>
    intro s n0 h1 h2 hmin hsucc
    unfold firstSuccessAux
    by_cases hs : s = n0
    · subst hs
      rw [if_pos hsucc]
    · have hlt : s < n0 := by omega
      rw [if_neg (by simp [hmin s (le_refl s) hlt])]
      exact ih (s + 1) n0 (by omega) (by omega) (fun m hm1 hm2 => hmin m (by omega) hm2) hsucc

theorem keysOf_map_rows (rows : List SpannerIndexerModel) (f : SpannerIndexerModel → Entry)
    (hf : ∀ r, entryKey (f r) = (r.organization_id, r.string)) :
    keysOf (rows.map f) = pairsOfModels rows := by
  unfold keysOf pairsOfModels
  rw [List.map_map]
  exact List.map_congr_left (fun r _ => hf r)

theorem insert_db_records_keys {fuel : Nat} {gen : Nat → Nat} {sched : Sched} {k : Nat}
    {rows : List SpannerIndexerModel} {wes : List Entry}
    (h : insert_db_records fuel gen sched k rows = some wes) :
    ∀ p ∈ keysOf wes, p ∈ pairsOfModels rows := by
  cases h1 : insertOk sched.phase1Db rows with
  | true =>
    rw [insert_db_records_pos h1] at h
    obtain rfl := (Option.some.inj h).symm
    intro p hp
    rwa [keysOf_map_rows rows (fun r =>
      ⟨r.organization_id, r.string, some r.decoded_id, FetchType.FIRST_SEEN, none⟩)
      (fun r => rfl)] at hp
  | false =>
    rw [insert_db_records_neg h1] at h
    unfold insert_collisions_handled at h
    cases hf : firstSuccess fuel gen sched rows k with
    | none => rw [hf] at h; cases h
    | some n =>
      rw [hf] at h
      simp only [Option.map_some', Option.some.injEq] at h
      obtain rfl := h.symm
      intro p hp
      rw [keysOf_map_rows _ (fun r =>
        ⟨r.organization_id, r.string, some (IdCodec.decode r.id),
          FetchType.DB_READ, none⟩) (fun r => rfl)] at hp
      unfold p2TriesAt uowMissing at hp
      exact uowLoop_pairs_subset _ _ _ rows _ hp

theorem insert_db_records_ids_some {fuel : Nat} {gen : Nat → Nat} {sched : Sched} {k : Nat}
    {rows : List SpannerIndexerModel} {wes : List Entry}
    (h : insert_db_records fuel gen sched k rows = some wes) :
    ∀ e ∈ wes, ∃ n, e.id = some n := by
  cases h1 : insertOk sched.phase1Db rows with
  | true =>
    rw [insert_db_records_pos h1] at h
    obtain rfl := (Option.some.inj h).symm
    intro e he
    obtain ⟨r, _, rfl⟩ := List.mem_map.mp he
    exact ⟨r.decoded_id, rfl⟩
  | false =>
    rw [insert_db_records_neg h1] at h
    unfold insert_collisions_handled at h
    cases hf : firstSuccess fuel gen sched rows k with
    | none => rw [hf] at h; cases h
    | some n =>
      rw [hf] at h
      simp only [Option.map_some', Option.some.injEq] at h
      obtain rfl := h.symm
      intro e he
      obtain ⟨r, _, rfl⟩ := List.mem_map.mp he
      exact ⟨IdCodec.decode r.id, rfl⟩

/-- C4: inside the Phase-2 transaction body, relative to the conflict
sets read from the table: every candidate row whose id is occupied is
replaced by a row carrying a brand-new generated id, re-encoded, with
all other fields unchanged; every remaining row whose
`(organization_id, string)` is already present contributes nothing to
the insert; every other row is inserted unchanged; and nothing beyond
these transformed candidates is inserted. -/
theorem c4_uow_resolution (gen : Nat → Nat) (k : Nat) (db : DB)
    (rows : List SpannerIndexerModel) (hnd : (pairsOfModels rows).Nodup) :
    (∀ row ∈ rows,
      (((existingRecords db rows).map (fun r => r.id)).contains row.id = true →
        ∃ j, k ≤ j ∧
          ({ row with id := IdCodec.encode (gen j), decoded_id := gen j } :
            SpannerIndexerModel) ∈ (uowMissing gen k db rows).1) ∧
      (((existingRecords db rows).map (fun r => r.id)).contains row.id = false →
        ((existingRecords db rows).map
            (fun r => (r.organization_id, r.string))).contains
            (row.organization_id, row.string) = true →
        (row.organization_id, row.string) ∉ pairsOfModels (uowMissing gen k db rows).1) ∧
      (((existingRecords db rows).map (fun r => r.id)).contains row.id = false →
        ((existingRecords db rows).map
            (fun r => (r.organization_id, r.string))).contains
            (row.organization_id, row.string) = false →
        row ∈ (uowMissing gen k db rows).1)) ∧
    (∀ m ∈ (uowMissing gen k db rows).1, ∃ row ∈ rows, m = row ∨
      ∃ j, m = ({ row with id := IdCodec.encode (gen j), decoded_id := gen j } :
        SpannerIndexerModel)) := by
  constructor
  · intro row hrow
    refine ⟨fun h => ?_, fun h1 h2 => ?_, fun h1 h2 => ?_⟩
    · exact uowLoop_regen gen _ _ rows k row hrow h
    · exact uowLoop_dropped gen _ _ rows k row hrow hnd h1 h2
    · exact uowLoop_keep gen _ _ rows k row hrow h1 h2
  · intro m hm
    rcases uowLoop_mem_strong gen _ _ rows k m hm with
      ⟨row, hr, heq, _⟩ | ⟨row, hr, j, _, _, heq, _⟩
    · exact ⟨row, hr, Or.inl heq⟩
    · exact ⟨row, hr, Or.inr ⟨j, heq⟩⟩

theorem c4_uow_resolution_witness :
    mkRow 1 1 "a" ∈ (uowMissing cgenFive 0 [] [mkRow 1 1 "a"]).1 :=
  ((c4_uow_resolution cgenFive 0 [] [mkRow 1 1 "a"] (by decide)).1
    (mkRow 1 1 "a") (List.mem_cons_self _ _)).2.2 (by decide) (by decide)

/-- C5: when the Phase-1 optimistic batch insert commits, every row of
the batch is reported FIRST_SEEN (with its decoded id); when Phase 1
conflicts and the Phase-2 loop first commits at retry `n0`, exactly the
rows that transaction actually inserted are reported DB_READ — rows
dropped by that transaction contribute no result. -/
theorem c5_provenance (fuel : Nat) (gen : Nat → Nat) (sched : Sched) (k : Nat)
    (rows : List SpannerIndexerModel) :
    (insertOk sched.phase1Db rows = true →
      insert_db_records fuel gen sched k rows =
        some (rows.map (fun r =>
          ⟨r.organization_id, r.string, some r.decoded_id, FetchType.FIRST_SEEN, none⟩))) ∧
    (∀ n0, insertOk sched.phase1Db rows = false →
      p2SuccessAt gen sched rows k n0 = true →
      (∀ m, m < n0 → p2SuccessAt gen sched rows k m = false) →
      n0 < fuel →
      insert_db_records fuel gen sched k rows =
        some ((p2TriesAt gen sched rows k n0).map (fun r =>
          ⟨r.organization_id, r.string, some (IdCodec.decode r.id),
            FetchType.DB_READ, none⟩))) := by
  constructor
  · intro h1
    exact insert_db_records_pos h1
  · intro n0 h1 hs hmin hf
    rw [insert_db_records_neg h1]
    unfold insert_collisions_handled
    have : firstSuccess fuel gen sched rows k = some n0 := by
      unfold firstSuccess
      exact firstSuccessAux_spec gen sched rows k fuel 0 n0 (by omega) (by omega)
        (fun m _ hm2 => hmin m hm2) hs
    rw [this]
    rfl

theorem c5_provenance_witness :
    insert_db_records 1 cgenFive exSchedEmpty 0 [mkRow 1 1 "a"] =
      some ([mkRow 1 1 "a"].map (fun r =>
        ⟨r.organization_id, r.string, some r.decoded_id, FetchType.FIRST_SEEN, none⟩)) ∧
    insert_db_records 1 cgenFive exSchedC1 0 [mkRow 5 1 "a"] =
      some ((p2TriesAt cgenFive exSchedC1 [mkRow 5 1 "a"] 0 0).map (fun r =>
        ⟨r.organization_id, r.string, some (IdCodec.decode r.id),
          FetchType.DB_READ, none⟩)) := by
  refine ⟨(c5_provenance 1 cgenFive exSchedEmpty 0 [mkRow 1 1 "a"]).1 (by decide),
    (c5_provenance 1 cgenFive exSchedC1 0 [mkRow 5 1 "a"]).2 0 (by decide) (by decide)
      (fun m hm => absurd hm (by omega)) (by decide)⟩

/-! Helper lemmas for the Phase-2 commit analysis. -/

theorem noDupRows_cons_iff {r : SpannerIndexerModel} {rest : List SpannerIndexerModel} :
    noDupRows (r :: rest) = true ↔
      (∀ q ∈ rest, q.id ≠ r.id ∧
        (q.organization_id, q.string) ≠ (r.organization_id, r.string)) ∧
      noDupRows rest = true := by
  show ((!(rest.any (fun q => q.id == r.id ||
      (q.organization_id == r.organization_id && q.string == r.string)))) &&
      noDupRows rest) = true ↔ _
  rw [Bool.and_eq_true, Bool.not_eq_eq_eq_not, Bool.not_true, List.any_eq_false]
  constructor
  · rintro ⟨h1, h2⟩
    refine ⟨fun q hq => ?_, h2⟩
    have h3 := h1 q hq
    simp only [Bool.or_eq_true, Bool.and_eq_true, beq_iff_eq, not_or] at h3
    exact ⟨h3.1, fun he => h3.2 ⟨congrArg Prod.fst he, congrArg Prod.snd he⟩⟩
  · rintro ⟨h1, h2⟩
    refine ⟨fun q hq => ?_, h2⟩
    obtain ⟨ha, hb⟩ := h1 q hq
    simp only [Bool.or_eq_true, Bool.and_eq_true, beq_iff_eq, not_or]
    exact ⟨ha, fun he => hb (by rw [he.1, he.2])⟩

theorem rowConflict_false {d : DB} {m : SpannerIndexerModel}
    (h1 : ∀ r0 ∈ d, r0.id ≠ m.id)
    (h2 : ∀ r0 ∈ d, (r0.organization_id, r0.string) ≠ (m.organization_id, m.string)) :
    rowConflict d m = false := by
  unfold rowConflict
  rw [List.any_eq_false]
  intro r0 hr0
  simp only [Bool.or_eq_true, Bool.and_eq_true, beq_iff_eq, not_or]
  refine ⟨h1 r0 hr0, fun he => ?_⟩
  exact h2 r0 hr0 (by rw [he.1, he.2])

theorem mem_existingRecords_of_id {d : DB} {rows : List SpannerIndexerModel}
    {r0 row : SpannerIndexerModel} (hr0 : r0 ∈ d) (hrow : row ∈ rows)
    (h : r0.id = row.id) : r0 ∈ existingRecords d rows := by
  unfold existingRecords
  refine List.mem_append_right _ (List.mem_filter.mpr ⟨hr0, ?_⟩)
  rw [List.any_eq_true]
  exact ⟨row, hrow, by simp [h]⟩

theorem uowLoop_noDup (gen : Nat → Nat) (I : List Int) (P : List (Nat × String)) :
    ∀ (rows : List SpannerIndexerModel) (k : Nat),
      noDupRows rows = true →
      (∀ j, k ≤ j → j < k + rows.length →
        IdCodec.encode (gen j) ∉ rows.map (fun r => r.id)) →
      (∀ j1 j2, k ≤ j1 → j1 < k + rows.length → k ≤ j2 → j2 < k + rows.length →
        IdCodec.encode (gen j1) = IdCodec.encode (gen j2) → j1 = j2) →
      noDupRows (uowLoop gen I P k rows).1 = true := by
  intro rows
  induction rows with
  | nil => intro k _ _ _; rfl
  | cons r rest ih =>
    intro k hnd hgr hinj
    obtain ⟨hhead, htail⟩ := noDupRows_cons_iff.mp hnd
    have hgr2 : ∀ k2, k ≤ k2 → k2 ≤ k + 1 → ∀ j, k2 ≤ j → j < k2 + rest.length →
        IdCodec.encode (gen j) ∉ rest.map (fun r => r.id) := by
      intro k2 hk2 hk2b j hj1 hj2 hmem
      refine hgr j (by omega) (by simp only [List.length_cons]; omega) ?_
      simp only [List.map_cons, List.mem_cons]
      exact Or.inr hmem
    have hinj2 : ∀ k2, k ≤ k2 → k2 ≤ k + 1 →
        ∀ j1 j2, k2 ≤ j1 → j1 < k2 + rest.length → k2 ≤ j2 → j2 < k2 + rest.length →
        IdCodec.encode (gen j1) = IdCodec.encode (gen j2) → j1 = j2 := by
      intro k2 hk2a hk2b j1 j2 ha hb hc hd he
      exact hinj j1 j2 (by omega) (by simp only [List.length_cons]; omega)
        (by omega) (by simp only [List.length_cons]; omega) he
    cases hc1 : I.contains r.id with
    | true =>
      have hout : (uowLoop gen I P k (r :: rest)).1 =
          ({ r with id := IdCodec.encode (gen k), decoded_id := gen k } :
            SpannerIndexerModel) :: (uowLoop gen I P (k + 1) rest).1 := by
        simp only [uowLoop, hc1, if_true]
      rw [hout, noDupRows_cons_iff]
      have hid : ({ r with id := IdCodec.encode (gen k), decoded_id := gen k } :
          SpannerIndexerModel).id = IdCodec.encode (gen k) := rfl
      have hpr : (({ r with id := IdCodec.encode (gen k), decoded_id := gen k } :
          SpannerIndexerModel).organization_id,
          ({ r with id := IdCodec.encode (gen k), decoded_id := gen k } :
          SpannerIndexerModel).string) = (r.organization_id, r.string) := rfl
      constructor
      · intro q hq
        rw [hid]
        rw [show (({ r with id := IdCodec.encode (gen k), decoded_id := gen k } :
          SpannerIndexerModel).organization_id,
          ({ r with id := IdCodec.encode (gen k), decoded_id := gen k } :
          SpannerIndexerModel).string) = (r.organization_id, r.string) from rfl]
        rcases uowLoop_mem_strong gen I P rest (k + 1) q hq with
          ⟨row, hrow, heq, _, _⟩ | ⟨row, hrow, j, hj1, hj2, heq, _⟩
        · constructor
          · intro he
            rw [heq] at he
            refine hgr k (le_refl k) (by simp only [List.length_cons]; omega) ?_
            simp only [List.map_cons, List.mem_cons]
            exact Or.inr (List.mem_map.mpr ⟨row, hrow, he⟩)
          · intro he
            rw [heq] at he
            exact (hhead row hrow).2 he
        · have hid2 : ({ row with id := IdCodec.encode (gen j), decoded_id := gen j } :
              SpannerIndexerModel).id = IdCodec.encode (gen j) := rfl
          have hpr2 : (({ row with id := IdCodec.encode (gen j), decoded_id := gen j } :
              SpannerIndexerModel).organization_id,
              ({ row with id := IdCodec.encode (gen j), decoded_id := gen j } :
              SpannerIndexerModel).string) = (row.organization_id, row.string) := rfl
          constructor
          · intro he
            rw [heq, hid2] at he
            have hj := hinj j k (by omega) (by simp only [List.length_cons]; omega)
              (le_refl k) (by simp only [List.length_cons]; omega) he
            omega
          · intro he
            rw [heq, hpr2] at he
            exact (hhead row hrow).2 he
      · exact ih (k + 1) htail (hgr2 (k + 1) (by omega) (by omega))
          (hinj2 (k + 1) (by omega) (by omega))
    | false =>
      cases hc2 : P.contains (r.organization_id, r.string) with
      | true =>
        have hout : (uowLoop gen I P k (r :: rest)).1 = (uowLoop gen I P k rest).1 := by
          simp only [uowLoop, hc1, hc2, Bool.false_eq_true, if_false, if_true]
        rw [hout]
        exact ih k htail (hgr2 k (le_refl k) (by omega)) (hinj2 k (le_refl k) (by omega))
      | false =>
        have hout : (uowLoop gen I P k (r :: rest)).1 =
            r :: (uowLoop gen I P k rest).1 := by
          simp only [uowLoop, hc1, hc2, Bool.false_eq_true, if_false]
        rw [hout, noDupRows_cons_iff]
        constructor
        · intro q hq
          rcases uowLoop_mem_strong gen I P rest k q hq with
            ⟨row, hrow, heq, _, _⟩ | ⟨row, hrow, j, hj1, hj2, heq, _⟩
          · rw [heq]
            exact hhead row hrow
          · have hid2 : ({ row with id := IdCodec.encode (gen j), decoded_id := gen j } :
                SpannerIndexerModel).id = IdCodec.encode (gen j) := rfl
            have hpr2 : (({ row with id := IdCodec.encode (gen j), decoded_id := gen j } :
                SpannerIndexerModel).organization_id,
                ({ row with id := IdCodec.encode (gen j), decoded_id := gen j } :
                SpannerIndexerModel).string) = (row.organization_id, row.string) := rfl
            constructor
            · intro he
              rw [heq, hid2] at he
              refine hgr j (by omega) (by simp only [List.length_cons]; omega) ?_
              simp only [List.map_cons, List.mem_cons]
              exact Or.inl he
            · intro he
              rw [heq, hpr2] at he
              exact (hhead row hrow).2 he
        · exact ih k htail (hgr2 k (le_refl k) (by omega)) (hinj2 k (le_refl k) (by omega))

theorem uowMissing_no_conflict (gen : Nat → Nat) (d : DB)
    (rows : List SpannerIndexerModel) (k0 : Nat)
    (hpair : ∀ row ∈ rows, (row.organization_id, row.string) ∉ pairsOfDb d)
    (hgd : ∀ j, k0 ≤ j → j < k0 + rows.length →
      IdCodec.encode (gen j) ∉ d.map (fun r => r.id)) :
    (uowMissing gen k0 d rows).1.any (rowConflict d) = false := by
  rw [List.any_eq_false]
  intro m hm
  unfold uowMissing at hm
  rcases uowLoop_mem_strong gen _ _ rows k0 m hm with
    ⟨row, hrow, heq, hcid, _⟩ | ⟨row, hrow, j, hj1, hj2, heq, _⟩
  · have hfalse : rowConflict d row = false := by
      refine rowConflict_false (fun r0 hr0 hid => ?_) (fun r0 hr0 hpq => ?_)
      · have hex : r0 ∈ existingRecords d rows := mem_existingRecords_of_id hr0 hrow hid
        have hmem : row.id ∈ (existingRecords d rows).map (fun r => r.id) :=
          List.mem_map.mpr ⟨r0, hex, hid⟩
        rw [contains_iff.mpr hmem] at hcid
        cases hcid
      · exact hpair row hrow (List.mem_map.mpr ⟨r0, hr0, hpq⟩)
    rw [heq, hfalse]
    simp
  · have hid2 : ({ row with id := IdCodec.encode (gen j), decoded_id := gen j } :
        SpannerIndexerModel).id = IdCodec.encode (gen j) := rfl
    have hfalse :
        rowConflict d ({ row with id := IdCodec.encode (gen j), decoded_id := gen j } :
          SpannerIndexerModel) = false := by
      refine rowConflict_false (fun r0 hr0 hid => ?_) (fun r0 hr0 hpq => ?_)
      · rw [hid2] at hid
        exact hgd j hj1 hj2 (List.mem_map.mpr ⟨r0, hr0, hid⟩)
      · have hpr2 : (({ row with id := IdCodec.encode (gen j), decoded_id := gen j } :
            SpannerIndexerModel).organization_id,
            ({ row with id := IdCodec.encode (gen j), decoded_id := gen j } :
            SpannerIndexerModel).string) = (row.organization_id, row.string) := rfl
        rw [hpr2] at hpq
        exact hpair row hrow (List.mem_map.mpr ⟨r0, hr0, hpq⟩)
    rw [heq, hfalse]
    simp

/-- C3 counterexample: with the batch `[exRowC3]`, the quiescent table
`exDbC3` (which already occupies both the candidate primary key and the
key every regeneration will produce) and the stuck generator
`cgenThree`, no Phase-2 retry ever commits: the claimed termination
"for every batch and every database state" is false. -/
theorem c3_counterexample : ¬ p2Terminates cgenThree exSchedC3 [exRowC3] 0 := by
  rintro ⟨n, hn⟩
  have hu : ∀ k, (uowMissing cgenThree k exDbC3 [exRowC3]).1 =
      [{ exRowC3 with id := IdCodec.encode 3, decoded_id := 3 }] := fun k => rfl
  unfold p2SuccessAt p2TriesAt at hn
  rw [show exSchedC3.commitDb n = exDbC3 from rfl,
    show exSchedC3.readDb n = exDbC3 from rfl, hu] at hn
  exact absurd hn (by decide)

/-- C3 amended: every Phase-2 retry draws its candidate insert set from
the original batch's `(organization_id, string)` pairs (the set never
grows beyond the batch), and the loop does terminate when the
environment is quiescent and benign — if no concurrent writer changes
the table across retries, the batch's pairs are absent from the table,
and the generator yields in-range, fresh, pairwise-distinct ids over
the consumed window, then already the first retry commits.  Termination
for *every* database state and generator, as claimed, is refuted by
`c3_counterexample`. -/
theorem c3_amended (gen : Nat → Nat) (sched : Sched) (rows : List SpannerIndexerModel)
    (k0 : Nat) :
    (∀ n p, p ∈ pairsOfModels (p2TriesAt gen sched rows k0 n) → p ∈ pairsOfModels rows) ∧
    (∀ d : DB, (∀ n, sched.readDb n = d) → (∀ n, sched.commitDb n = d) →
      noDupRows rows = true →
      (∀ row ∈ rows, (row.organization_id, row.string) ∉ pairsOfDb d) →
      (∀ j, k0 ≤ j → j < k0 + rows.length → gen j < 2 ^ 63) →
      (∀ j, k0 ≤ j → j < k0 + rows.length →
        IdCodec.encode (gen j) ∉ d.map (fun r => r.id)) →
      (∀ j, k0 ≤ j → j < k0 + rows.length →
        IdCodec.encode (gen j) ∉ rows.map (fun r => r.id)) →
      (∀ j1 j2, k0 ≤ j1 → j1 < k0 + rows.length → k0 ≤ j2 → j2 < k0 + rows.length →
        gen j1 = gen j2 → j1 = j2) →
      p2SuccessAt gen sched rows k0 0 = true ∧ p2Terminates gen sched rows k0) := by
  constructor
  · intro n p hp
    unfold p2TriesAt uowMissing at hp
    exact uowLoop_pairs_subset _ _ _ rows _ hp
  · intro d hrd hcd hnd hpair hgb hgd hgr hginj
    have hsucc : p2SuccessAt gen sched rows k0 0 = true := by
      unfold p2SuccessAt p2TriesAt
      rw [hcd 0, hrd 0]
      show insertOk d (uowMissing gen (p2State gen sched rows k0 0) d rows).1 = true
      have hks : p2State gen sched rows k0 0 = k0 := rfl
      rw [hks]
      unfold insertOk
      rw [Bool.and_eq_true]
      constructor
      · show noDupRows (uowMissing gen k0 d rows).1 = true
        unfold uowMissing
        apply uowLoop_noDup gen _ _ rows k0 hnd hgr
        intro j1 j2 h1 h2 h3 h4 he
        exact hginj j1 j2 h1 h2 h3 h4 (encode_injective
          (lt_trans (hgb j1 h1 h2) (by norm_num))
          (lt_trans (hgb j2 h3 h4) (by norm_num)) he)
      · rw [Bool.not_eq_eq_eq_not, Bool.not_true]
        exact uowMissing_no_conflict gen d rows k0 hpair hgd
    exact ⟨hsucc, 0, hsucc⟩

theorem c3_amended_witness :
    p2SuccessAt cgenShift exSchedEmpty [mkRow 1 1 "a"] 0 0 = true ∧
    p2Terminates cgenShift exSchedEmpty [mkRow 1 1 "a"] 0 :=
  (c3_amended cgenShift exSchedEmpty [mkRow 1 1 "a"] 0).2 []
    (fun _ => rfl) (fun _ => rfl) (by decide)
    (by intro row hrow; simp [pairsOfDb])
    (by intro j h1 h2
        have hj : j = 0 := by simpa using h2
        subst hj
        norm_num [cgenShift])
    (by intro j h1 h2; simp)
    (by intro j h1 h2
        have hj : j = 0 := by simpa using h2
        subst hj
        decide)
    (by intro j1 j2 h1 h2 h3 h4 he
        simp only [cgenShift] at he
        omega)

theorem keysOf_merge {a b : KeyResults} {p : Nat × String} :
    p ∈ keysOf (mergeResults a b) ↔ p ∈ keysOf a ∨ p ∈ keysOf b := keysOf_addEntries

theorem keysOf_addEntries_nil {es : List Entry} {p : Nat × String} :
    p ∈ keysOf (addEntries [] es) ↔ p ∈ keysOf es := by
  rw [keysOf_addEntries]
  simp [keysOf]

/-- C1 counterexample: `bulk_record` for the single pair `(1, "a")` on
an initially empty table, where a concurrent writer interns `(1, "a")`
between the snapshot read and the Phase-1 commit, returns an *empty*
result set — the pair was dropped by the Phase-2 conflict transaction
and no stage ever re-reads it, so the returned key set does not cover
the input. -/
theorem c1_counterexample :
    bulk_record 1 cgenFive 0 0 limAllowAll exSchedC1 [(1, ["a"])] = some [] ∧
    (1, "a") ∈ mkPairs [(1, ["a"])] := ⟨by decide, by decide⟩

/-- C1 amended: whenever `bulk_record` returns, the returned key set is
exactly the input's `(organization_id, string)` pairs *minus* the
accepted pairs the committing Phase-2 transaction dropped (which is
empty when Phase 1 commits, when everything is resolved by the initial
read, or when admission drops everything) — so completeness holds
exactly when Phase 2 drops nothing, not unconditionally. -/
theorem c1_amended (fuel : Nat) (gen : Nat → Nat) (k0 now : Nat) (lim : WritesLimiter)
    (sched : Sched) (input : List (Nat × List String)) (res : KeyResults)
    (h : bulk_record fuel gen k0 now lim sched input = some res) :
    ∀ p, p ∈ keysOf res ↔
      p ∈ mkPairs input ∧ p ∉ p2droppedOf fuel gen k0 now lim sched input := by
  intro p
  unfold bulk_record at h
  by_cases h1 : (bulkWriteKeys sched input).isEmpty = true
  · rw [if_pos h1] at h
    obtain rfl : res = bulkReadResults sched input := (Option.some.inj h).symm
    have hwnil : bulkWriteKeys sched input = [] := List.isEmpty_iff.mp h1
    have haccnil : (bulkAccepted lim sched input).isEmpty = true := by
      unfold bulkAccepted
      rw [hwnil]
      rfl
    have hdrop : p2droppedOf fuel gen k0 now lim sched input = [] := by
      unfold p2droppedOf bulkWriteEntries bulkCreated
      rw [if_pos haccnil]
    rw [hdrop]
    simp only [List.not_mem_nil, not_false_eq_true, and_true]
    rw [keysRead_iff]
    constructor
    · rintro ⟨ha, _⟩
      exact ha
    · intro ha
      refine ⟨ha, ?_⟩
      by_contra hdb
      have hmem : p ∈ bulkWriteKeys sched input := writeKeys_iff.mpr ⟨ha, hdb⟩
      rw [hwnil] at hmem
      cases hmem
  · rw [if_neg h1] at h
    by_cases h2 : (bulkAccepted lim sched input).isEmpty = true
    · rw [if_pos h2] at h
      obtain rfl : res = mergeResults (bulkReadResults sched input)
          (bulkRateLimited lim sched input) := (Option.some.inj h).symm
      have haccnil : bulkAccepted lim sched input = [] := List.isEmpty_iff.mp h2
      have hdrop : p2droppedOf fuel gen k0 now lim sched input = [] := by
        unfold p2droppedOf bulkWriteEntries bulkCreated
        rw [if_pos h2]
      rw [hdrop]
      simp only [List.not_mem_nil, not_false_eq_true, and_true]
      rw [keysOf_merge]
      constructor
      · rintro (hr | hd)
        · exact (keysRead_iff.mp hr).1
        · exact (writeKeys_iff.mp (droppedKeys_iff.mp (rateLimited_keys_iff.mp hd)).1).1
      · intro ha
        by_cases hdb : p ∈ pairsOfDb sched.initialDb
        · exact Or.inl (keysRead_iff.mpr ⟨ha, hdb⟩)
        · have hw2 : p ∈ bulkWriteKeys sched input := writeKeys_iff.mpr ⟨ha, hdb⟩
          cases hadm : lim.admits p.1 p.2 with
          | true =>
            have hacc : p ∈ bulkAccepted lim sched input := accepted_iff.mpr ⟨hw2, hadm⟩
            rw [haccnil] at hacc
            cases hacc
          | false =>
            exact Or.inr (rateLimited_keys_iff.mpr (droppedKeys_iff.mpr ⟨hw2, hadm⟩))
    · rw [if_neg h2] at h
      split at h
      · cases h
      · rename_i new_records k1 hc
        split at h
        · cases h
        · rename_i wes hw
          obtain rfl : res = mergeResults (mergeResults (bulkReadResults sched input)
              (addEntries [] wes)) (bulkRateLimited lim sched input) :=
            (Option.some.inj h).symm
          have hcreate : create_db_records gen now k0 (bulkAccepted lim sched input) =
              some (new_records, k1) := by
            unfold bulkCreated at hc
            rw [if_neg h2] at hc
            exact hc
          have hpairs : pairsOfModels new_records = bulkAccepted lim sched input :=
            createLoop_pairs hcreate
          have hwe : bulkWriteEntries fuel gen k0 now lim sched input = some wes := by
            unfold bulkWriteEntries
            rw [hc]
            exact hw
          have hkwe : ∀ q ∈ keysOf wes, q ∈ bulkAccepted lim sched input := by
            intro q hq
            rw [← hpairs]
            exact insert_db_records_keys hw q hq
          have hdrop : p2droppedOf fuel gen k0 now lim sched input =
              (bulkAccepted lim sched input).filter
                (fun q => !((keysOf wes).contains q)) := by
            unfold p2droppedOf
            rw [hwe]
          rw [hdrop, keysOf_merge, keysOf_merge, keysOf_addEntries_nil]
          constructor
          · rintro ((hr | hwk) | hd)
            · refine ⟨(keysRead_iff.mp hr).1, fun hpd => ?_⟩
              have hacc := (List.mem_filter.mp hpd).1
              exact (writeKeys_iff.mp (accepted_iff.mp hacc).1).2 (keysRead_iff.mp hr).2
            · have hacc := hkwe p hwk
              refine ⟨(writeKeys_iff.mp (accepted_iff.mp hacc).1).1, fun hpd => ?_⟩
              have hnc := (List.mem_filter.mp hpd).2
              rw [not_contains_iff] at hnc
              exact hnc hwk
            · have hdk := rateLimited_keys_iff.mp hd
              refine ⟨(writeKeys_iff.mp (droppedKeys_iff.mp hdk).1).1, fun hpd => ?_⟩
              have hacc := (List.mem_filter.mp hpd).1
              have h3 := (accepted_iff.mp hacc).2
              have h4 := (droppedKeys_iff.mp hdk).2
              rw [h3] at h4
              cases h4
          · rintro ⟨hin, hnd⟩
            by_cases hdb : p ∈ pairsOfDb sched.initialDb
            · exact Or.inl (Or.inl (keysRead_iff.mpr ⟨hin, hdb⟩))
            · have hw2 : p ∈ bulkWriteKeys sched input := writeKeys_iff.mpr ⟨hin, hdb⟩
              cases hadm : lim.admits p.1 p.2 with
              | false =>
                exact Or.inr (rateLimited_keys_iff.mpr (droppedKeys_iff.mpr ⟨hw2, hadm⟩))
              | true =>
                have hacc : p ∈ bulkAccepted lim sched input := accepted_iff.mpr ⟨hw2, hadm⟩
                refine Or.inl (Or.inr ?_)
                by_contra hnw
                apply hnd
                rw [List.mem_filter]
                exact ⟨hacc, not_contains_iff.mpr hnw⟩

theorem c1_amended_witness :
    (1, "a") ∈ keysOf [(⟨1, "a", some 5, FetchType.FIRST_SEEN, none⟩ : Entry)] ↔
      (1, "a") ∈ mkPairs [(1, ["a"])] ∧
      (1, "a") ∉ p2droppedOf 1 cgenFive 0 0 limAllowAll exSchedEmpty [(1, ["a"])] :=
  c1_amended 1 cgenFive 0 0 limAllowAll exSchedEmpty [(1, ["a"])]
    [⟨1, "a", some 5, FetchType.FIRST_SEEN, none⟩] (by decide) (1, "a")

/-! Helper lemmas about the entries each stage contributes. -/

theorem readResults_ids_some {sched : Sched} {input : List (Nat × List String)} :
    ∀ e ∈ bulkReadResults sched input, ∃ n, e.id = some n := by
  intro e he
  rcases mem_addEntries_elim he with h | h
  · cases h
  · rw [List.mem_map] at h
    obtain ⟨kr, hkr, rfl⟩ := h
    unfold get_db_records at hkr
    rw [List.mem_map] at hkr
    obtain ⟨r, _, rfl⟩ := hkr
    exact ⟨IdCodec.decode r.id, rfl⟩

theorem rateLimited_entries {lim : WritesLimiter} {sched : Sched}
    {input : List (Nat × List String)} {e : Entry}
    (h : e ∈ bulkRateLimited lim sched input) :
    ∃ q ∈ bulkDroppedKeys lim sched input,
      e = ⟨q.1, q.2, none, lim.dropFetchType q.1 q.2, lim.dropFetchTypeExt q.1 q.2⟩ := by
  rcases mem_addEntries_elim h with h2 | h2
  · cases h2
  · rw [List.mem_map] at h2
    obtain ⟨q, hq, rfl⟩ := h2
    exact ⟨q, hq, rfl⟩

theorem keysOf_rateList {lim : WritesLimiter} {sched : Sched}
    {input : List (Nat × List String)} :
    keysOf ((bulkDroppedKeys lim sched input).map (fun p =>
      (⟨p.1, p.2, none, lim.dropFetchType p.1 p.2, lim.dropFetchTypeExt p.1 p.2⟩ : Entry))) =
      bulkDroppedKeys lim sched input := by
  unfold keysOf
  rw [List.map_map]
  have : ∀ q ∈ bulkDroppedKeys lim sched input,
      (entryKey ∘ fun p => (⟨p.1, p.2, none, lim.dropFetchType p.1 p.2,
        lim.dropFetchTypeExt p.1 p.2⟩ : Entry)) q = id q := fun q _ => rfl
  rw [List.map_congr_left this, List.map_id]

/-- C7: a key that misses the initial read and is dropped by the Write
Admission Layer appears in `bulk_record`'s returned results as exactly
one entry — the id-less placeholder tagged with the layer-supplied
fetch type and `fetch_type_ext` — and it never reaches the write path:
it is not in the accepted key set and not among the created rows. -/
theorem c7_admission_frame (fuel : Nat) (gen : Nat → Nat) (k0 now : Nat)
    (lim : WritesLimiter) (sched : Sched) (input : List (Nat × List String))
    (org : Nat) (s : String) (res : KeyResults)
    (hmem : (org, s) ∈ mkPairs input)
    (hmiss : (org, s) ∉ pairsOfDb sched.initialDb)
    (hdrop : lim.admits org s = false)
    (h : bulk_record fuel gen k0 now lim sched input = some res) :
    ((⟨org, s, none, lim.dropFetchType org s, lim.dropFetchTypeExt org s⟩ : Entry) ∈ res) ∧
    (∀ e ∈ res, e.org_id = org → e.string = s →
      e = ⟨org, s, none, lim.dropFetchType org s, lim.dropFetchTypeExt org s⟩) ∧
    ((org, s) ∉ bulkAccepted lim sched input) ∧
    (∀ rows k1, bulkCreated gen k0 now lim sched input = some (rows, k1) →
      (org, s) ∉ pairsOfModels rows) := by
  have hw2 : (org, s) ∈ bulkWriteKeys sched input := writeKeys_iff.mpr ⟨hmem, hmiss⟩
  have hnacc : (org, s) ∉ bulkAccepted lim sched input := by
    intro hacc
    have := (accepted_iff.mp hacc).2
    rw [hdrop] at this
    cases this
  have hcreated : ∀ rows k1, bulkCreated gen k0 now lim sched input = some (rows, k1) →
      (org, s) ∉ pairsOfModels rows := by
    intro rows k1 hcr hmem2
    unfold bulkCreated at hcr
    by_cases hz : (bulkAccepted lim sched input).isEmpty = true
    · rw [if_pos hz] at hcr; cases hcr
    · rw [if_neg hz] at hcr
      rw [createLoop_pairs hcr] at hmem2
      exact hnacc hmem2
  have hdk : (org, s) ∈ bulkDroppedKeys lim sched input :=
    droppedKeys_iff.mpr ⟨hw2, hdrop⟩
  have hkeysrl : keysOf ((bulkDroppedKeys lim sched input).map (fun p =>
      (⟨p.1, p.2, none, lim.dropFetchType p.1 p.2, lim.dropFetchTypeExt p.1 p.2⟩ :
        Entry))) = bulkDroppedKeys lim sched input := keysOf_rateList
  have hrlnodup : (keysOf ((bulkDroppedKeys lim sched input).map (fun p =>
      (⟨p.1, p.2, none, lim.dropFetchType p.1 p.2, lim.dropFetchTypeExt p.1 p.2⟩ :
        Entry)))).Nodup := by
    rw [hkeysrl]
    exact droppedKeys_nodup lim sched input
  have hel : (⟨org, s, none, lim.dropFetchType org s, lim.dropFetchTypeExt org s⟩ : Entry) ∈
      (bulkDroppedKeys lim sched input).map (fun p =>
        (⟨p.1, p.2, none, lim.dropFetchType p.1 p.2, lim.dropFetchTypeExt p.1 p.2⟩ :
          Entry)) := List.mem_map.mpr ⟨(org, s), hdk, rfl⟩
  have herate : (⟨org, s, none, lim.dropFetchType org s,
      lim.dropFetchTypeExt org s⟩ : Entry) ∈ bulkRateLimited lim sched input :=
    mem_addEntries_self hrlnodup hel
  have hratenodup : (keysOf (bulkRateLimited lim sched input)).Nodup :=
    keysOf_nodup_addEntries (by simp [keysOf])
  unfold bulk_record at h
  by_cases h1 : (bulkWriteKeys sched input).isEmpty = true
  · rw [List.isEmpty_iff.mp h1] at hw2
    cases hw2
  · rw [if_neg h1] at h
    by_cases h2 : (bulkAccepted lim sched input).isEmpty = true
    · rw [if_pos h2] at h
      obtain rfl : res = mergeResults (bulkReadResults sched input)
          (bulkRateLimited lim sched input) := (Option.some.inj h).symm
      refine ⟨mem_addEntries_self hratenodup herate, ?_, hnacc, hcreated⟩
      intro e he he1 he2
      rcases mem_addEntries_elim he with hx | hx
      · exfalso
        have : (org, s) ∈ keysOf (bulkReadResults sched input) :=
          mem_keysOf.mpr ⟨e, hx, by simp [entryKey, he1, he2]⟩
        exact hmiss (keysRead_iff.mp this).2
      · obtain ⟨q, _, rfl⟩ := rateLimited_entries hx
        have hq1 : q.1 = org := he1
        have hq2 : q.2 = s := he2
        rw [show q = (org, s) from Prod.ext hq1 hq2]
    · rw [if_neg h2] at h
      split at h
      · cases h
      · rename_i new_records k1 hc
        split at h
        · cases h
        · rename_i wes hw
          obtain rfl : res = mergeResults (mergeResults (bulkReadResults sched input)
              (addEntries [] wes)) (bulkRateLimited lim sched input) :=
            (Option.some.inj h).symm
          have hkwe : ∀ q ∈ keysOf wes, q ∈ bulkAccepted lim sched input := by
            intro q hq
            have hcreate : create_db_records gen now k0 (bulkAccepted lim sched input) =
                some (new_records, k1) := by
              unfold bulkCreated at hc
              rw [if_neg h2] at hc
              exact hc
            rw [← createLoop_pairs hcreate]
            exact insert_db_records_keys hw q hq
          refine ⟨mem_addEntries_self hratenodup herate, ?_, hnacc, hcreated⟩
          intro e he he1 he2
          rcases mem_addEntries_elim he with hx | hx
          · exfalso
            have hkey : (org, s) ∈ keysOf (mergeResults (bulkReadResults sched input)
                (addEntries [] wes)) :=
              mem_keysOf.mpr ⟨e, hx, by simp [entryKey, he1, he2]⟩
            rcases keysOf_merge.mp hkey with hk | hk
            · exact hmiss (keysRead_iff.mp hk).2
            · exact hnacc (hkwe (org, s) (keysOf_addEntries_nil.mp hk))
          · obtain ⟨q, _, rfl⟩ := rateLimited_entries hx
            have hq1 : q.1 = org := he1
            have hq2 : q.2 = s := he2
            rw [show q = (org, s) from Prod.ext hq1 hq2]

theorem c7_admission_frame_witness :
    ((⟨1, "a", none, FetchType.RATE_LIMITED, none⟩ : Entry) ∈
      [(⟨1, "a", none, FetchType.RATE_LIMITED, none⟩ : Entry)]) ∧
    ((1, "a") ∉ bulkAccepted limDenyAll exSchedEmpty [(1, ["a"])]) := by
  have h := c7_admission_frame 1 cgenFive 0 0 limDenyAll exSchedEmpty [(1, ["a"])] 1 "a"
    [(⟨1, "a", none, FetchType.RATE_LIMITED, none⟩ : Entry)]
    (by decide) (by decide) (by decide) (by decide)
  exact ⟨h.1, h.2.2.1⟩

theorem findEntry_some {krs : KeyResults} {org : Nat} {s : String} {e : Entry}
    (h : findEntry krs org s = some e) : e ∈ krs ∧ e.org_id = org ∧ e.string = s := by
  unfold findEntry at h
  have h1 := List.mem_of_find?_eq_some h
  have h2 := List.find?_some h
  simp only [Bool.and_eq_true, beq_iff_eq] at h2
  exact ⟨h1, h2.1, h2.2⟩

theorem mkPairs_singleton (org : Nat) (s : String) :
    mkPairs [(org, [s])] = [(org, s)] := rfl

theorem writeKeys_singleton_sub {sched : Sched} {org : Nat} {s : String} :
    ∀ q ∈ bulkWriteKeys sched [(org, [s])], q = (org, s) := by
  intro q hq
  have hm := (writeKeys_iff.mp hq).1
  rw [mkPairs_singleton] at hm
  exact List.mem_singleton.mp hm

/-- C8: `record` calls `bulk_record` with the singleton batch and
extracts the one result; whenever it returns a value (rather than
raising), that value is null exactly when the admission layer dropped
the single key (the key missed the initial read and was not admitted);
in every other returning case the id is non-null. -/
theorem c8_record_singleton (fuel : Nat) (gen : Nat → Nat) (k0 now : Nat)
    (lim : WritesLimiter) (sched : Sched) (org : Nat) (s : String) (v : Option Nat)
    (h : record fuel gen k0 now lim sched org s = some v) :
    v = none ↔ ((org, s) ∉ pairsOfDb sched.initialDb ∧ lim.admits org s = false) := by
  unfold record at h
  split at h
  · cases h
  · rename_i res hb
    split at h
    · cases h
    · rename_i e hf
      obtain rfl : v = e.id := (Option.some.inj h).symm
      obtain ⟨hemem, he1, he2⟩ := findEntry_some hf
      unfold bulk_record at hb
      by_cases h1 : (bulkWriteKeys sched [(org, [s])]).isEmpty = true
      · rw [if_pos h1] at hb
        obtain rfl : res = bulkReadResults sched [(org, [s])] := (Option.some.inj hb).symm
        obtain ⟨n, hn⟩ := readResults_ids_some e hemem
        have hdb : (org, s) ∈ pairsOfDb sched.initialDb := by
          have hkey : (org, s) ∈ keysOf (bulkReadResults sched [(org, [s])]) :=
            mem_keysOf.mpr ⟨e, hemem, by simp [entryKey, he1, he2]⟩
          exact (keysRead_iff.mp hkey).2
        constructor
        · intro hv
          rw [hv] at hn
          cases hn
        · rintro ⟨ha, _⟩
          exact absurd hdb ha
      · have hostw : (org, s) ∈ bulkWriteKeys sched [(org, [s])] := by
          have hne : bulkWriteKeys sched [(org, [s])] ≠ [] := by
            intro hnil
            apply h1
            rw [hnil]
            rfl
          obtain ⟨q, hq⟩ := List.exists_mem_of_ne_nil _ hne
          have hqe := writeKeys_singleton_sub q hq
          rwa [hqe] at hq
        have hnotdb : (org, s) ∉ pairsOfDb sched.initialDb := (writeKeys_iff.mp hostw).2
        rw [if_neg h1] at hb
        by_cases h2 : (bulkAccepted lim sched [(org, [s])]).isEmpty = true
        · have hadm : lim.admits org s = false := by
            cases hadm : lim.admits org s with
            | false => rfl
            | true =>
              have hacc : (org, s) ∈ bulkAccepted lim sched [(org, [s])] :=
                accepted_iff.mpr ⟨hostw, hadm⟩
              rw [List.isEmpty_iff.mp h2] at hacc
              cases hacc
          rw [if_pos h2] at hb
          obtain rfl : res = mergeResults (bulkReadResults sched [(org, [s])])
              (bulkRateLimited lim sched [(org, [s])]) := (Option.some.inj hb).symm
          rcases mem_addEntries_elim hemem with hx | hx
          · exfalso
            have hkey : (org, s) ∈ keysOf (bulkReadResults sched [(org, [s])]) :=
              mem_keysOf.mpr ⟨e, hx, by simp [entryKey, he1, he2]⟩
            exact hnotdb (keysRead_iff.mp hkey).2
          · obtain ⟨q, _, rfl⟩ := rateLimited_entries hx
            constructor
            · intro _
              exact ⟨hnotdb, hadm⟩
            · intro _
              rfl
        · have hadm : lim.admits org s = true := by
            have hne : bulkAccepted lim sched [(org, [s])] ≠ [] := by
              intro hnil
              apply h2
              rw [hnil]
              rfl
            obtain ⟨q, hq⟩ := List.exists_mem_of_ne_nil _ hne
            have hq2 := accepted_iff.mp hq
            have hqe := writeKeys_singleton_sub q hq2.1
            rw [hqe] at hq2
            exact hq2.2
          rw [if_neg h2] at hb
          split at hb
          · cases hb
          · rename_i new_records k1 hc
            split at hb
            · cases hb
            · rename_i wes hw
              obtain rfl : res = mergeResults (mergeResults
                  (bulkReadResults sched [(org, [s])]) (addEntries [] wes))
                  (bulkRateLimited lim sched [(org, [s])]) := (Option.some.inj hb).symm
              rcases mem_addEntries_elim hemem with hx | hx
              · rcases mem_addEntries_elim hx with hy | hy
                · exfalso
                  have hkey : (org, s) ∈ keysOf (bulkReadResults sched [(org, [s])]) :=
                    mem_keysOf.mpr ⟨e, hy, by simp [entryKey, he1, he2]⟩
                  exact hnotdb (keysRead_iff.mp hkey).2
                · rcases mem_addEntries_elim hy with hz | hz
                  · cases hz
                  · obtain ⟨n, hn⟩ := insert_db_records_ids_some hw e hz
                    constructor
                    · intro hv
                      rw [hv] at hn
                      cases hn
                    · rintro ⟨_, hfalse⟩
                      rw [hadm] at hfalse
                      cases hfalse
              · exfalso
                obtain ⟨q, hq, rfl⟩ := rateLimited_entries hx
                have hqe : q = (org, s) := Prod.ext he1 he2
                rw [hqe] at hq
                have hfd := (droppedKeys_iff.mp hq).2
                rw [hadm] at hfd
                cases hfd

theorem c8_record_singleton_witness :
    (none : Option Nat) = none ↔
      ((1, "a") ∉ pairsOfDb exSchedEmpty.initialDb ∧ limDenyAll.admits 1 "a" = false) :=
  c8_record_singleton 1 cgenFive 0 0 limDenyAll exSchedEmpty 1 "a" none (by decide)
